import Mathlib

/-!
Verification of the DuMM force-field subsystem core
(`src/Molecular/src/DuMMForceFieldSubsystem.cpp`).

The C++ source is shallowly embedded: machine `Real` becomes `ℝ` for the
numeric kernels (combining rules, stretch forces, torsion geometry) and an
arbitrary `LinearOrderedField` for the registry/table logic so that concrete
instances can be evaluated over `ℚ`; `std::map` keyed by class tuples becomes
an association list; the `std::set` used as the BFS visited set becomes a
`Finset ℕ`; atom and class indices become `ℕ` or a linearly ordered type,
matching the C++ templates `IndexTriple<T>` / `IndexQuad<T>`.
-/

namespace Simbody

/-! ## IndexQuad and its canonicalization (source lines 130-169)

The C++ `IndexQuad<T>` is a template over the index type, so the embedding is
parametrized by a linearly ordered type. `canonicalize` reverses the whole
quad when the outer entries are out of order, or equal with the middle pair
out of order. -/

structure IndexQuad (α : Type) where
  a : α
  b : α
  c : α
  d : α
deriving DecidableEq, Repr

/-- Whole-quad reversal (swap(ixs[0],ixs[3]); swap(ixs[1],ixs[2])). -/
def IndexQuad.reversed {α : Type} (q : IndexQuad α) : IndexQuad α :=
  ⟨q.d, q.c, q.b, q.a⟩

/-- `IndexQuad::canonicalize` (source lines 142-150). -/
def IndexQuad.canonicalize {α : Type} [LinearOrder α] (q : IndexQuad α) :
    IndexQuad α :=
  if q.a > q.d ∨ (q.a = q.d ∧ q.b > q.c) then q.reversed else q

/-- `DuMMForceFieldSubsystemRep::getBondTorsion` (source lines 2638-2648):
canonicalize the class quad, then look it up in the normal-torsion map.  The
map is embedded as an association list; `β` stands for the stored
`BondTorsion` value. -/
def getBondTorsion {α β : Type} [LinearOrder α]
    (table : List (IndexQuad α × β)) (c1 c2 c3 c4 : α) : Option β :=
  (table.find? (fun kv => kv.1 = IndexQuad.canonicalize ⟨c1, c2, c3, c4⟩)).map
    Prod.snd

/-- `DuMMForceFieldSubsystemRep::getAmberImproperTorsion` (source lines
2650-2677): same lookup but with *no* canonicalization of the key. -/
def getAmberImproperTorsion {α β : Type} [DecidableEq α]
    (table : List (IndexQuad α × β)) (c1 c2 c3 c4 : α) : Option β :=
  (table.find? (fun kv => kv.1 = (⟨c1, c2, c3, c4⟩ : IndexQuad α))).map
    Prod.snd

/-- `arithmeticMean` (source line 209). -/
noncomputable def arithmeticMean (x y : ℝ) : ℝ := 0.5 * (x + y)

/-- `geometricMean` (source line 212). -/
noncomputable def geometricMean (x y : ℝ) : ℝ := Real.sqrt (x * y)

/-- `harmonicMean` (source line 215). -/
noncomputable def harmonicMean (x y : ℝ) : ℝ := (2 * x * y) / (x + y)

/-- `cubicMean` (source line 221). -/
noncomputable def cubicMean (x y : ℝ) : ℝ :=
  (x * x * x + y * y * y) / (x * x + y * y)

/-- `hhgMean` (source line 227). -/
noncomputable def hhgMean (x y : ℝ) : ℝ :=
  harmonicMean (harmonicMean x y) (geometricMean x y)

/-- `oo6` (source line 258). -/
noncomputable def oo6 : ℝ := 1 / 6

/-- `oo13` (source line 259). -/
noncomputable def oo13 : ℝ := 1 / 13

/-- `vdwCombineLorentzBerthelot` (source lines 232-238); returns (r, e). -/
noncomputable def vdwCombineLorentzBerthelot (ri rj ei ej : ℝ) : ℝ × ℝ :=
  (arithmeticMean ri rj, geometricMean ei ej)

/-- `vdwCombineJorgensen` (source lines 241-247). -/
noncomputable def vdwCombineJorgensen (ri rj ei ej : ℝ) : ℝ × ℝ :=
  (geometricMean ri rj, geometricMean ei ej)

/-- `vdwCombineHalgrenHHG` (source lines 250-256). -/
noncomputable def vdwCombineHalgrenHHG (ri rj ei ej : ℝ) : ℝ × ℝ :=
  (cubicMean ri rj, hhgMean ei ej)

/-- `vdwCombineWaldmanHagler` (source lines 265-276); `std::pow` becomes
`Real.rpow`. -/
noncomputable def vdwCombineWaldmanHagler (ri rj ei ej : ℝ) : ℝ × ℝ :=
  let ri3 := ri * ri * ri
  let ri6 := ri3 * ri3
  let rj3 := rj * rj * rj
  let rj6 := rj3 * rj3
  let er6 := geometricMean (ei * ri6) (ej * rj6)
  let r6 := arithmeticMean ri6 rj6
  (r6 ^ oo6, er6 / r6)

/-- `vdwCombineKong` (source lines 289-305). -/
noncomputable def vdwCombineKong (ri rj ei ej : ℝ) : ℝ × ℝ :=
  let ri3 := ri * ri * ri
  let ri6 := ri3 * ri3
  let ri12 := ri6 * ri6
  let rj3 := rj * rj * rj
  let rj6 := rj3 * rj3
  let rj12 := rj6 * rj6
  let er6 := geometricMean (ei * ri6) (ej * rj6)
  let eri12om13 := (ei * ri12) ^ oo13
  let erj12om13 := (ej * rj12) ^ oo13
  let er12om13 := arithmeticMean eri12om13 erj12om13
  let r6 := er12om13 ^ (13 : ℕ) / er6
  (r6 ^ oo6, er6 / r6)

/-- The five supported rules (enum `VdwMixingRule`). -/
inductive VdwMixingRule where
  | WaldmanHagler
  | HalgrenHHG
  | Jorgensen
  | LorentzBerthelot
  | Kong
deriving DecidableEq, Repr

/-- `DuMMForceFieldSubsystemRep::applyMixingRule` (source lines 1160-1179);
returns (dmin, emin) with `dmin = 2*rmin`. -/
noncomputable def applyMixingRule (rule : VdwMixingRule) (ri rj ei ej : ℝ) :
    ℝ × ℝ :=
  let re :=
    match rule with
    | .WaldmanHagler => vdwCombineWaldmanHagler ri rj ei ej
    | .HalgrenHHG => vdwCombineHalgrenHHG ri rj ei ej
    | .Jorgensen => vdwCombineJorgensen ri rj ei ej
    | .LorentzBerthelot => vdwCombineLorentzBerthelot ri rj ei ej
    | .Kong => vdwCombineKong ri rj ei ej
  (2 * re.1, re.2)

/-- The per-rule combination, before the `dmin = 2*rmin` doubling. -/
noncomputable def combineRule (rule : VdwMixingRule) (ri rj ei ej : ℝ) :
    ℝ × ℝ :=
  match rule with
  | .WaldmanHagler => vdwCombineWaldmanHagler ri rj ei ej
  | .HalgrenHHG => vdwCombineHalgrenHHG ri rj ei ej
  | .Jorgensen => vdwCombineJorgensen ri rj ei ej
  | .LorentzBerthelot => vdwCombineLorentzBerthelot ri rj ei ej
  | .Kong => vdwCombineKong ri rj ei ej

inductive ApiResult (σ : Type) where
  | ok : σ → ApiResult σ
  | err : σ → ApiResult σ
  | ub : ApiResult σ
deriving DecidableEq, Repr

structure AtomClass (α : Type) where
  atomClassIx : Int
  element : Int
  valence : Int
  vdwRadius : α
  vdwWellDepth : α
deriving DecidableEq, Repr

/-- Default-constructed `AtomClass` (source line 333): all fields -1,
hence invalid. -/
def AtomClass.invalid {α : Type} [LinearOrderedField α] : AtomClass α :=
  ⟨-1, -1, -1, -1, -1⟩

/-- `AtomClass::isValid` (source lines 342-346). -/
def AtomClass.isValid {α : Type} (c : AtomClass α) : Prop :=
  c.atomClassIx ≥ 0 ∧ c.element > 0 ∧ c.valence ≥ 0

instance {α : Type} (c : AtomClass α) : Decidable c.isValid := by
  unfold AtomClass.isValid; infer_instance

structure ChargedAtomType (α : Type) where
  chargedAtomTypeIndex : Int
  atomClassIx : Int
  charge : α
deriving DecidableEq, Repr

/-- Default-constructed `ChargedAtomType` (source line 415): invalid indices
(the NaN charge is represented by 0; only the indices decide validity). -/
def ChargedAtomType.invalid {α : Type} [LinearOrderedField α] :
    ChargedAtomType α := ⟨-1, -1, 0⟩

/-- `ChargedAtomType::isValid` (source line 421). -/
def ChargedAtomType.isValid {α : Type} (t : ChargedAtomType α) : Prop :=
  t.chargedAtomTypeIndex ≥ 0 ∧ t.atomClassIx ≥ 0

instance {α : Type} (t : ChargedAtomType α) : Decidable t.isValid := by
  unfold ChargedAtomType.isValid; infer_instance

/-- `DuMMForceFieldSubsystem::setAtomClassVdwParameters` (source lines
1594-1613): argument checks are nonnegativity only; then the slot is written
directly with no check that the atom class was ever defined. -/
def setAtomClassVdwParameters {α : Type} [LinearOrderedField α]
    (atomClasses : List (AtomClass α)) (atomClassIx : Int)
    (vdwRadiusInNm vdwWellDepthInKJPerMol : α) :
    ApiResult (List (AtomClass α)) :=
  if ¬ atomClassIx ≥ 0 then .err atomClasses
  else if ¬ vdwRadiusInNm ≥ 0 then .err atomClasses
  else if ¬ vdwWellDepthInKJPerMol ≥ 0 then .err atomClasses
  else if h : atomClassIx.toNat < atomClasses.length then
    .ok (atomClasses.set atomClassIx.toNat
      { atomClasses.get ⟨atomClassIx.toNat, h⟩ with
          vdwRadius := vdwRadiusInNm, vdwWellDepth := vdwWellDepthInKJPerMol })
  else .ub

/-- `DuMMForceFieldSubsystem::setChargedAtomTypeCharge` (source lines
1653-1666): the only argument check is nonnegativity of the index; then the
slot is written directly with no check that the type was ever defined. -/
def setChargedAtomTypeCharge {α : Type} [LinearOrderedField α]
    (chargedAtomTypes : List (ChargedAtomType α))
    (chargedAtomTypeIndex : Int) (c : α) :
    ApiResult (List (ChargedAtomType α)) :=
  if ¬ chargedAtomTypeIndex ≥ 0 then .err chargedAtomTypes
  else if h : chargedAtomTypeIndex.toNat < chargedAtomTypes.length then
    .ok (chargedAtomTypes.set chargedAtomTypeIndex.toNat
      { chargedAtomTypes.get ⟨chargedAtomTypeIndex.toNat, h⟩ with charge := c })
  else .ub

/-- C9 counterexample: with a one-slot registry whose slot 0 was never
defined (the default-constructed, invalid entry), `setAtomClassVdwParameters 0`
and `setChargedAtomTypeCharge 0` both *succeed* and mutate the registry,
instead of failing with an InvalidKey error as the claim states. -/
structure TorsionTerm (α : Type) where
  periodicity : Int
  amplitude : α
  theta0 : α
deriving DecidableEq, Repr

structure BondTorsion (α : Type) where
  classes : IndexQuad Int
  terms : List (TorsionTerm α)
deriving DecidableEq, Repr

/-- `BondTorsion::operator==` (source lines 592-610): same number of terms;
every term of mine has a term of the other with the same periodicity, and any
other-term with that periodicity agrees on amplitude and phase. -/
def BondTorsion.sameTerms {α : Type} [DecidableEq α] (x y : BondTorsion α) :
    Prop :=
  x.terms.length = y.terms.length ∧
  ∀ t ∈ x.terms,
    (∃ u ∈ y.terms, u.periodicity = t.periodicity) ∧
    ∀ u ∈ y.terms, u.periodicity = t.periodicity →
      t.amplitude = u.amplitude ∧ t.theta0 = u.theta0

instance {α : Type} [DecidableEq α] (x y : BondTorsion α) :
    Decidable (x.sameTerms y) := by
  unfold BondTorsion.sameTerms; infer_instance

/-- `DuMMForceFieldSubsystemRep::isValidAtomClass` (source lines 1149-1152). -/
def isValidAtomClass {α : Type} [LinearOrderedField α]
    (atomClasses : List (AtomClass α)) (classNum : Int) : Prop :=
  0 ≤ classNum ∧ classNum.toNat < atomClasses.length ∧
    (atomClasses.getD classNum.toNat AtomClass.invalid).isValid

instance {α : Type} [LinearOrderedField α] (atomClasses : List (AtomClass α))
    (classNum : Int) : Decidable (isValidAtomClass atomClasses classNum) := by
  unfold isValidAtomClass; infer_instance

/-- `DuMMForceFieldSubsystemRep::checkTorsion` (source lines 1743-1804):
the argument validation shared by `defineBondTorsion` and
`defineAmberImproperTorsion`. -/
def checkTorsion {α : Type} [LinearOrderedField α]
    (atomClasses : List (AtomClass α)) (class1 class2 class3 class4 : Int)
    (periodicity1 : Int) (amp1InKJ phase1InDegrees : α)
    (periodicity2 : Int) (amp2InKJ phase2InDegrees : α)
    (periodicity3 : Int) (amp3InKJ phase3InDegrees : α) : Prop :=
  isValidAtomClass atomClasses class1 ∧ isValidAtomClass atomClasses class2 ∧
  isValidAtomClass atomClasses class3 ∧ isValidAtomClass atomClasses class4 ∧
  (periodicity1 ≠ -1 ∨ periodicity2 ≠ -1 ∨ periodicity3 ≠ -1) ∧
  (periodicity1 ≠ -1 →
    (1 ≤ periodicity1 ∧ periodicity1 ≤ 6) ∧ amp1InKJ ≥ 0 ∧
    (0 ≤ phase1InDegrees ∧ phase1InDegrees ≤ 180) ∧
    periodicity2 ≠ periodicity1 ∧ periodicity3 ≠ periodicity1) ∧
  (periodicity2 ≠ -1 →
    (1 ≤ periodicity2 ∧ periodicity2 ≤ 6) ∧ amp2InKJ ≥ 0 ∧
    (0 ≤ phase2InDegrees ∧ phase2InDegrees ≤ 180) ∧
    periodicity3 ≠ periodicity2) ∧
  (periodicity3 ≠ -1 →
    (1 ≤ periodicity3 ∧ periodicity3 ≤ 6) ∧ amp3InKJ ≥ 0 ∧
    (0 ≤ phase3InDegrees ∧ phase3InDegrees ≤ 180))

instance {α : Type} [LinearOrderedField α] (atomClasses : List (AtomClass α))
    (c1 c2 c3 c4 p1 : Int) (a1 f1 : α) (p2 : Int) (a2 f2 : α) (p3 : Int)
    (a3 f3 : α) :
    Decidable (checkTorsion atomClasses c1 c2 c3 c4 p1 a1 f1 p2 a2 f2 p3 a3 f3) := by
  unfold checkTorsion; infer_instance

/-- The up-to-three `TorsionTerm`s assembled by the define calls (periodicity
-1 marks an unused slot); phases arrive in degrees and are stored in radians. -/
def buildTorsionTerms {α : Type} [LinearOrderedField α] (deg2rad : α)
    (p1 : Int) (a1 f1 : α) (p2 : Int) (a2 f2 : α) (p3 : Int) (a3 f3 : α) :
    List (TorsionTerm α) :=
  (if p1 ≠ -1 then [⟨p1, a1, f1 * deg2rad⟩] else []) ++
  (if p2 ≠ -1 then [⟨p2, a2, f2 * deg2rad⟩] else []) ++
  (if p3 ≠ -1 then [⟨p3, a3, f3 * deg2rad⟩] else [])

/-- Association-list embedding of the `std::map` keyed by class quads. -/
def findQuad {β : Type} (table : List (IndexQuad Int × β)) (key : IndexQuad Int) :
    Option β :=
  (table.find? (fun kv => kv.1 = key)).map Prod.snd

/-- `DuMMForceFieldSubsystem::defineBondTorsion` (source lines 1813-1862):
validate, canonicalize the quad, assemble the terms; an identical existing
entry is silently accepted, a differing one is an error (the failed
`std::map::insert` leaves the table unchanged). -/
def defineBondTorsion {α : Type} [LinearOrderedField α] (deg2rad : α)
    (atomClasses : List (AtomClass α))
    (bondTorsion : List (IndexQuad Int × BondTorsion α))
    (class1 class2 class3 class4 : Int)
    (p1 : Int) (a1 f1 : α) (p2 : Int) (a2 f2 : α) (p3 : Int) (a3 f3 : α) :
    ApiResult (List (IndexQuad Int × BondTorsion α)) :=
  if ¬ checkTorsion atomClasses class1 class2 class3 class4 p1 a1 f1 p2 a2 f2 p3 a3 f3 then
    .err bondTorsion
  else
    match findQuad bondTorsion
        (IndexQuad.canonicalize ⟨class1, class2, class3, class4⟩) with
    | some old =>
        if old.sameTerms
            ⟨IndexQuad.canonicalize ⟨class1, class2, class3, class4⟩,
             buildTorsionTerms deg2rad p1 a1 f1 p2 a2 f2 p3 a3 f3⟩ then
          .ok bondTorsion
        else .err bondTorsion
    | none =>
        .ok (bondTorsion ++
          [(IndexQuad.canonicalize ⟨class1, class2, class3, class4⟩,
            ⟨IndexQuad.canonicalize ⟨class1, class2, class3, class4⟩,
             buildTorsionTerms deg2rad p1 a1 f1 p2 a2 f2 p3 a3 f3⟩)])

/-- `DuMMForceFieldSubsystem::defineAmberImproperTorsion` (source lines
1892-1933): same validation, *no* canonicalization, and *no* identical-entry
acceptance — any occupied key is an error. -/
def defineAmberImproperTorsion {α : Type} [LinearOrderedField α] (deg2rad : α)
    (atomClasses : List (AtomClass α))
    (amberImproperTorsion : List (IndexQuad Int × BondTorsion α))
    (class1 class2 class3 class4 : Int)
    (p1 : Int) (a1 f1 : α) (p2 : Int) (a2 f2 : α) (p3 : Int) (a3 f3 : α) :
    ApiResult (List (IndexQuad Int × BondTorsion α)) :=
  if ¬ checkTorsion atomClasses class1 class2 class3 class4 p1 a1 f1 p2 a2 f2 p3 a3 f3 then
    .err amberImproperTorsion
  else
    match findQuad amberImproperTorsion (⟨class1, class2, class3, class4⟩ : IndexQuad Int) with
    | some _ => .err amberImproperTorsion
    | none =>
        .ok (amberImproperTorsion ++
          [((⟨class1, class2, class3, class4⟩ : IndexQuad Int),
            ⟨⟨class1, class2, class3, class4⟩,
             buildTorsionTerms deg2rad p1 a1 f1 p2 a2 f2 p3 a3 f3⟩)])

/-! ## Vec3 geometry (external SimTK vector algebra used by the kernels)

`Vec3`, `%` (cross), `~a*b` (dot), `.norm()` and `UnitVec3` come from the
SimTK common library, not from this file; they are embedded with their
standard mathematical meaning over `ℝ`. -/

structure Vec3 where
  x : ℝ
  y : ℝ
  z : ℝ

def Vec3.add (u v : Vec3) : Vec3 := ⟨u.x + v.x, u.y + v.y, u.z + v.z⟩

def Vec3.sub (u v : Vec3) : Vec3 := ⟨u.x - v.x, u.y - v.y, u.z - v.z⟩

def Vec3.neg (u : Vec3) : Vec3 := ⟨-u.x, -u.y, -u.z⟩

def Vec3.smul (c : ℝ) (u : Vec3) : Vec3 := ⟨c * u.x, c * u.y, c * u.z⟩

/-- `~u*v`, dot product. -/
def Vec3.dot (u v : Vec3) : ℝ := u.x * v.x + u.y * v.y + u.z * v.z

/-- `u % v`, cross product. -/
def Vec3.cross (u v : Vec3) : Vec3 :=
  ⟨u.y * v.z - u.z * v.y, u.z * v.x - u.x * v.z, u.x * v.y - u.y * v.x⟩

/-- `Vec3::norm`. -/
noncomputable def Vec3.norm (u : Vec3) : ℝ := Real.sqrt (u.dot u)

def Vec3.zero : Vec3 := ⟨0, 0, 0⟩

/-- `v/|v|`, the normalization performed by the `UnitVec3` constructor. -/
noncomputable def Vec3.unitize (u : Vec3) : Vec3 := Vec3.smul (1 / u.norm) u

/-- External SimTK `UnitVec3::perp()`: a unit vector perpendicular to the
argument, built by crossing with the coordinate axis of smallest absolute
component of the normalized input. -/
noncomputable def perpUnit (w : Vec3) : Vec3 :=
  let u := w.unitize
  let ax : Vec3 :=
    if |u.x| ≤ |u.y| then (if |u.x| ≤ |u.z| then ⟨1, 0, 0⟩ else ⟨0, 0, 1⟩)
    else (if |u.y| ≤ |u.z| then ⟨0, 1, 0⟩ else ⟨0, 0, 1⟩)
  (u.cross ax).unitize

/-- A SimTK spatial vector: torque about the body origin plus linear force,
both in the ground frame. -/
structure SpatialVec where
  torque : Vec3
  force : Vec3

/-! ## Bond-stretch kernel term (source lines 3096-3125)

The body of the cross-body 1-2 loop of
`DuMMForceFieldSubsystemRep::realizeSubsystemDynamicsImpl`, given the two
atoms' ground-frame stations and positions, the stretch parameters and the
global stretch scale factor.  Returns the energy contribution and the two
spatial forces accumulated onto body 2 and body 1. -/

noncomputable def stretchKernel (bsK bsD0 g : ℝ)
    (a1Station a1Pos a2Station a2Pos : Vec3) :
    ℝ × SpatialVec × SpatialVec :=
  let r := Vec3.sub a2Pos a1Pos
  let d := r.norm
  let x := d - bsD0
  let k := g * bsK
  let eStretch := k * x * x
  let fStretch := -2 * k * x
  let f2 := Vec3.smul (fStretch / d) r
  (eStretch, ⟨a2Station.cross f2, f2⟩,
    ⟨Vec3.neg (a1Station.cross f2), Vec3.neg f2⟩)

/-! ## BondTorsion::periodic (source lines 3776-3845)

The intermediate axis and plane normals are exposed as named definitions so
the degenerate branch condition (`tt == 0 || uu == 0`) can be stated; the
routine leaves `theta` unassigned in that branch, embedded as `none`. -/

/-- The axis unit vector `v` (source lines 3793-3799), including the
increasingly desperate fallbacks for overlapping atoms. -/
noncomputable def torsionAxis (rG xG yG sG : Vec3) : Vec3 :=
  let r := Vec3.sub xG rG
  let s := Vec3.sub sG yG
  let xy := Vec3.sub yG xG
  let vv := xy.dot xy
  let oov := if vv = 0 then (0 : ℝ) else 1 / Real.sqrt vv
  if oov ≠ 0 then Vec3.smul oov xy
  else if (r.cross s).norm ≠ 0 then (r.cross s).unitize
  else perpUnit r

/-- Plane normal `t = r % v` (source line 3806). -/
noncomputable def torsionT (rG xG yG sG : Vec3) : Vec3 :=
  (Vec3.sub xG rG).cross (torsionAxis rG xG yG sG)

/-- Plane normal `u = v % s` (source line 3806). -/
noncomputable def torsionU (rG xG yG sG : Vec3) : Vec3 :=
  (torsionAxis rG xG yG sG).cross (Vec3.sub sG yG)

/-- `TorsionTerm::energy` (source line 550). -/
noncomputable def TorsionTerm.energy (t : TorsionTerm ℝ) (theta : ℝ) : ℝ :=
  t.amplitude * (1 + Real.cos ((t.periodicity : ℝ) * theta - t.theta0))

/-- `TorsionTerm::torque` (source line 553). -/
noncomputable def TorsionTerm.torque (t : TorsionTerm ℝ) (theta : ℝ) : ℝ :=
  (t.periodicity : ℝ) * t.amplitude * Real.sin ((t.periodicity : ℝ) * theta - t.theta0)

/-- C `atan2(y,x)`. -/
noncomputable def atan2 (y x : ℝ) : ℝ :=
  if x > 0 then Real.arctan (y / x)
  else if x < 0 then
    (if y ≥ 0 then Real.arctan (y / x) + Real.pi else Real.arctan (y / x) - Real.pi)
  else (if y > 0 then Real.pi / 2 else if y < 0 then -(Real.pi / 2) else 0)

/-- Output of `BondTorsion::periodic`: torsion angle (unassigned in the
degenerate branch), energy, and the four atom forces. -/
structure TorsionOut where
  theta : Option ℝ
  pe : ℝ
  rf : Vec3
  xf : Vec3
  yf : Vec3
  sf : Vec3

/-- `BondTorsion::periodic` (source lines 3776-3845).  The intermediate
vectors computed before the degenerate test are pure, so they are bound
inside the non-degenerate branch (the only place they are consumed). -/
noncomputable def btPeriodic (terms : List (TorsionTerm ℝ)) (scale : ℝ)
    (rG xG yG sG : Vec3) : TorsionOut :=
  if (torsionT rG xG yG sG).dot (torsionT rG xG yG sG) = 0 ∨
      (torsionU rG xG yG sG).dot (torsionU rG xG yG sG) = 0 then
    ⟨none, 0, Vec3.zero, Vec3.zero, Vec3.zero, Vec3.zero⟩
  else
    let r := Vec3.sub xG rG
    let s := Vec3.sub sG yG
    let xy := Vec3.sub yG xG
    let vv := xy.dot xy
    let oov := if vv = 0 then (0 : ℝ) else 1 / Real.sqrt vv
    let v := torsionAxis rG xG yG sG
    let t := torsionT rG xG yG sG
    let u := torsionU rG xG yG sG
    let tt := t.dot t
    let uu := u.dot u
    let txu := t.cross u
    let ootu := 1 / Real.sqrt (tt * uu)
    let cth := (t.dot u) * ootu
    let sth := (v.dot txu) * ootu
    let theta := atan2 sth cth
    let pe := scale * (terms.map (fun tm => tm.energy theta)).sum
    let torque := scale * (terms.map (fun tm => tm.torque theta)).sum
    let ry := Vec3.sub yG rG
    let xs := Vec3.sub sG xG
    let dedt := Vec3.smul (torque / tt) (t.cross v)
    let dedu := Vec3.smul (-(torque / uu)) (u.cross v)
    let rf := dedt.cross v
    let sf := dedu.cross v
    if oov = 0 then ⟨some theta, pe, rf, Vec3.neg rf, Vec3.neg sf, sf⟩
    else
      ⟨some theta, pe, rf,
       Vec3.smul oov (Vec3.add (ry.cross dedt) (dedu.cross s)),
       Vec3.smul oov (Vec3.add (dedt.cross r) (xs.cross dedu)), sf⟩

/-! ## Nonbonded scaling passes (source lines 3540-3580) -/

/-- The per-distance scale factors and globals consulted by
`scaleBondedAtoms` / `unscaleBondedAtoms` (members of
`DuMMForceFieldSubsystemRep`). -/
structure ScaleFactors where
  vdwScale12 : ℝ
  coulombScale12 : ℝ
  vdwScale13 : ℝ
  coulombScale13 : ℝ
  vdwScale14 : ℝ
  coulombScale14 : ℝ
  vdwScale15 : ℝ
  coulombScale15 : ℝ

/-- The cross-body lists of one realized atom that the scaling passes read. -/
structure AtomScaleView where
  xbond12 : List ℕ
  xshortPath13 : List (ℕ × ℕ)
  xshortPath14 : List (ℕ × ℕ × ℕ)
  xshortPath15 : List (ℕ × ℕ × ℕ × ℕ)

/-- One loop of `scaleBondedAtoms`/`unscaleBondedAtoms`: write `vVal` into
`vdwScale[ix]` and `cVal` into `coulombScale[ix]` for each listed index. -/
def scalePass (vVal cVal : ℝ) (ixs : List ℕ) (p : (ℕ → ℝ) × (ℕ → ℝ)) :
    (ℕ → ℝ) × (ℕ → ℝ) :=
  ixs.foldl
    (fun q ix => (Function.update q.1 ix vVal, Function.update q.2 ix cVal)) p

open scoped Classical in
/-- `DuMMForceFieldSubsystemRep::scaleBondedAtoms` (source lines 3540-3561). -/
noncomputable def scaleBondedAtoms (g : ScaleFactors) (a : AtomScaleView)
    (p : (ℕ → ℝ) × (ℕ → ℝ)) : (ℕ → ℝ) × (ℕ → ℝ) :=
  let p1 := scalePass g.vdwScale12 g.coulombScale12 a.xbond12 p
  let p2 := scalePass g.vdwScale13 g.coulombScale13
    (a.xshortPath13.map (fun t => t.2)) p1
  let p3 := if g.vdwScale14 ≠ 1 ∨ g.coulombScale14 ≠ 1 then
      scalePass g.vdwScale14 g.coulombScale14
        (a.xshortPath14.map (fun t => t.2.2)) p2
    else p2
  if g.vdwScale15 ≠ 1 ∨ g.coulombScale15 ≠ 1 then
    scalePass g.vdwScale15 g.coulombScale15
      (a.xshortPath15.map (fun t => t.2.2.2)) p3
  else p3

open scoped Classical in
/-- `DuMMForceFieldSubsystemRep::unscaleBondedAtoms` (source lines
3563-3580): same loops and the same guards, writing 1 everywhere. -/
noncomputable def unscaleBondedAtoms (g : ScaleFactors) (a : AtomScaleView)
    (p : (ℕ → ℝ) × (ℕ → ℝ)) : (ℕ → ℝ) × (ℕ → ℝ) :=
  let p1 := scalePass 1 1 a.xbond12 p
  let p2 := scalePass 1 1 (a.xshortPath13.map (fun t => t.2)) p1
  let p3 := if g.vdwScale14 ≠ 1 ∨ g.coulombScale14 ≠ 1 then
      scalePass 1 1 (a.xshortPath14.map (fun t => t.2.2)) p2
    else p2
  if g.vdwScale15 ≠ 1 ∨ g.coulombScale15 ≠ 1 then
    scalePass 1 1 (a.xshortPath15.map (fun t => t.2.2.2)) p3
  else p3

open scoped Classical in
/-- The indices written by one invocation of the scale (equivalently the
unscale) pass for focal atom `a` under factor set `g`: both routines walk the
same four lists under the same guards. -/
noncomputable def scaleTouchList (g : ScaleFactors) (a : AtomScaleView) :
    List ℕ :=
  a.xbond12 ++ a.xshortPath13.map (fun t => t.2) ++
  (if g.vdwScale14 ≠ 1 ∨ g.coulombScale14 ≠ 1 then
    a.xshortPath14.map (fun t => t.2.2) else []) ++
  (if g.vdwScale15 ≠ 1 ∨ g.coulombScale15 ≠ 1 then
    a.xshortPath15.map (fun t => t.2.2.2) else [])

/-! ## Neighborhood build at topology realization (source lines 2770-2889)

For one focal atom `anum`, given the 1-2 adjacency `adj` (each atom's
`bond12` list), the per-atom loop builds six lists.  The all-paths lists
(`bond1N`) depend only on the adjacency; the shortest-path lists
(`shortPath1N`) additionally thread the single `std::set` visited set
(`allBondedSoFar`), embedded as a `Finset ℕ`.  The C++ interleaves the
bond13/shortPath13 pushes in one loop; the embedding computes the pure
all-paths list and the visited-threaded shortest-path list by separate
recursions over the same iteration order, producing the same lists. -/

/-- Ascending sort of a 1-2 list (`std::sort(a.bond12...)`). -/
def sortNat (l : List ℕ) : List ℕ := l.insertionSort (· ≤ ·)

/-- Lexicographic order of `AtomIndexPair` (`IndexPair::operator<`). -/
def pairLe (x y : ℕ × ℕ) : Prop :=
  x.1 < y.1 ∨ (x.1 = y.1 ∧ x.2 ≤ y.2)

instance : DecidableRel pairLe := fun x y => by unfold pairLe; infer_instance

/-- Lexicographic order of `AtomIndexTriple` (source lines 117-125). -/
def tripleLe (x y : ℕ × ℕ × ℕ) : Prop :=
  x.1 < y.1 ∨ (x.1 = y.1 ∧ pairLe x.2 y.2)

instance : DecidableRel tripleLe := fun x y => by unfold tripleLe; infer_instance

/-- Lexicographic order of `AtomIndexQuad` (source lines 156-166). -/
def quadLe (x y : ℕ × ℕ × ℕ × ℕ) : Prop :=
  x.1 < y.1 ∨ (x.1 = y.1 ∧ tripleLe x.2 y.2)

instance : DecidableRel quadLe := fun x y => by unfold quadLe; infer_instance

def sortPair (l : List (ℕ × ℕ)) : List (ℕ × ℕ) := l.insertionSort pairLe

def sortTriple (l : List (ℕ × ℕ × ℕ)) : List (ℕ × ℕ × ℕ) :=
  l.insertionSort tripleLe

def sortQuad (l : List (ℕ × ℕ × ℕ × ℕ)) : List (ℕ × ℕ × ℕ × ℕ) :=
  l.insertionSort quadLe

/-- Inner loop of a shortest-path pass: walk the 1-2 list of the entry's
last atom; a neighbor not yet in the visited set is claimed (inserted) and
the extended path recorded. -/
def spInner {E F : Type} (ext : E → ℕ → F) (e : E) :
    List ℕ → Finset ℕ → List F × Finset ℕ
  | [], vis => ([], vis)
  | n :: rest, vis =>
    if n ∈ vis then spInner ext e rest vis
    else
      (ext e n :: (spInner ext e rest (insert n vis)).1,
       (spInner ext e rest (insert n vis)).2)

/-- Outer loop of a shortest-path pass over the previous level's entries,
threading the shared visited set. -/
def spPass {E F : Type} (adj : ℕ → List ℕ) (lastOf : E → ℕ) (ext : E → ℕ → F) :
    List E → Finset ℕ → List F × Finset ℕ
  | [], vis => ([], vis)
  | e :: rest, vis =>
    ((spInner ext e (adj (lastOf e)) vis).1 ++
       (spPass adj lastOf ext rest (spInner ext e (adj (lastOf e)) vis).2).1,
     (spPass adj lastOf ext rest (spInner ext e (adj (lastOf e)) vis).2).2)

/-- The six neighborhood lists of one realized atom. -/
structure AtomNbhd where
  bond13 : List (ℕ × ℕ)
  shortPath13 : List (ℕ × ℕ)
  bond14 : List (ℕ × ℕ × ℕ)
  shortPath14 : List (ℕ × ℕ × ℕ)
  bond15 : List (ℕ × ℕ × ℕ × ℕ)
  shortPath15 : List (ℕ × ℕ × ℕ × ℕ)

/-- The per-atom neighborhood build (source lines 2770-2889): sort the 1-2
list; seed the visited set with the focal atom and its 1-2 neighbors; build
1-3, 1-4, 1-5 all-paths lists (no repeated vertex) and shortest-path lists
(visited-set claimed), sorting each list as the source does. -/
def buildNeighborhoods (adj : ℕ → List ℕ) (anum : ℕ) : AtomNbhd :=
  let s12 := sortNat (adj anum)
  let vis0 : Finset ℕ := insert anum (adj anum).toFinset
  let b13s := sortPair (s12.flatMap (fun b =>
    ((adj b).filter (fun n => n ≠ anum)).map (fun n => (b, n))))
  let sp13 := spPass adj id (fun b n => (b, n)) s12 vis0
  let sp13s := sortPair sp13.1
  let b14s := sortTriple (b13s.flatMap (fun bc =>
    ((adj bc.2).filter (fun d => d ≠ anum ∧ d ≠ bc.1)).map
      (fun d => (bc.1, bc.2, d))))
  let sp14 := spPass adj (fun bc => bc.2) (fun bc d => (bc.1, bc.2, d)) sp13s sp13.2
  let sp14s := sortTriple sp14.1
  let b15s := sortQuad (b14s.flatMap (fun t =>
    ((adj t.2.2).filter (fun e => e ≠ anum ∧ e ≠ t.1 ∧ e ≠ t.2.1)).map
      (fun e => (t.1, t.2.1, t.2.2, e))))
  let sp15 := spPass adj (fun t => t.2.2) (fun t e => (t.1, t.2.1, t.2.2, e))
    sp14s sp14.2
  ⟨b13s, sp13s, b14s, sp14s, b15s, sortQuad sp15.1⟩

/-! ## Amber improper-torsion enumeration at realization
(source lines 2992-3023)

For an atom with a valid `xbonds3Atoms` triple the source enumerates the six
orderings (i2,i3,i4) of the three neighbors, forms the class quad
(class(n_i2), class(n_i3), centralClass, class(n_i4)) and consults the
improper-torsion table.  Two semantics are embedded: the per-ordering fresh
lookup the spec describes, and the C++ `static const BondTorsion bt`
semantics in which the lookup result is computed only at the first execution
of the statement and reused for every later ordering and atom. -/

/-- The (i2,i3,i4) sequence generated by the three nested loops with their
skip tests (source lines 3002-3006). -/
def improperOrders : List (ℕ × ℕ × ℕ) :=
  (List.range 3).flatMap (fun i2 =>
    ((List.range 3).filter (fun i3 => i3 ≠ i2)).flatMap (fun i3 =>
      ((List.range 3).filter (fun i4 => i4 ≠ i2 ∧ i4 ≠ i3)).map
        (fun i4 => (i2, i3, i4))))

/-- `a.xbonds3Atoms[i]`. -/
def triNth (tri : ℕ × ℕ × ℕ) (i : ℕ) : ℕ :=
  if i = 0 then tri.1 else if i = 1 then tri.2.1 else tri.2.2

/-- Fresh-lookup semantics of the improper-torsion enumeration (the spec's
reading): for each ordering consult the table with that ordering's class
quad and record (neighbor triple, matched entry) exactly on a hit. -/
def aImproperFresh {α : Type} [DecidableEq α]
    (tbl : List (IndexQuad Int × BondTorsion α)) (classOf : ℕ → Int)
    (c1 : Int) (tri : ℕ × ℕ × ℕ) : List ((ℕ × ℕ × ℕ) × BondTorsion α) :=
  improperOrders.filterMap (fun o =>
    match getAmberImproperTorsion tbl (classOf (triNth tri o.1))
        (classOf (triNth tri o.2.1)) c1 (classOf (triNth tri o.2.2)) with
    | some bt =>
        some ((triNth tri o.1, triNth tri o.2.1, triNth tri o.2.2), bt)
    | none => none)

/-- One execution of the loop body under C++ local-`static` semantics: the
initializer runs only if the cache is empty; afterwards the cached lookup
result is used regardless of the current ordering's quad. -/
def improperStaticStep {α : Type} [DecidableEq α]
    (tbl : List (IndexQuad Int × BondTorsion α)) (classOf : ℕ → Int)
    (c1 : Int) (tri : ℕ × ℕ × ℕ) (o : ℕ × ℕ × ℕ)
    (cache : Option (Option (BondTorsion α))) :
    Option (Option (BondTorsion α)) × Option ((ℕ × ℕ × ℕ) × BondTorsion α) :=
  let res :=
    match cache with
    | none => getAmberImproperTorsion tbl (classOf (triNth tri o.1))
        (classOf (triNth tri o.2.1)) c1 (classOf (triNth tri o.2.2))
    | some v => v
  (some res,
    match res with
    | some bt =>
        some ((triNth tri o.1, triNth tri o.2.1, triNth tri o.2.2), bt)
    | none => none)

/-- The six-ordering loop of one atom under `static` semantics, threading
the cache. -/
def aImproperStatic {α : Type} [DecidableEq α]
    (tbl : List (IndexQuad Int × BondTorsion α)) (classOf : ℕ → Int)
    (c1 : Int) (tri : ℕ × ℕ × ℕ)
    (cache : Option (Option (BondTorsion α))) :
    Option (Option (BondTorsion α)) × List ((ℕ × ℕ × ℕ) × BondTorsion α) :=
  improperOrders.foldl
    (fun acc o =>
      let st := improperStaticStep tbl classOf c1 tri o acc.1
      (st.1, acc.2 ++ st.2.toList))
    (cache, [])

/-- The realize-loop over every atom having a valid `xbonds3Atoms`
(central class, neighbor triple), under `static` semantics: the cache
persists across atoms (and across calls).  Returns each atom's recorded
entry list. -/
def realizeImproperStatic {α : Type} [DecidableEq α]
    (tbl : List (IndexQuad Int × BondTorsion α)) (classOf : ℕ → Int) :
    List (Int × (ℕ × ℕ × ℕ)) → Option (Option (BondTorsion α)) →
      List (List ((ℕ × ℕ × ℕ) × BondTorsion α))
  | [], _ => []
  | a :: rest, cache =>
    (aImproperStatic tbl classOf a.1 a.2 cache).2 ::
      realizeImproperStatic tbl classOf rest (aImproperStatic tbl classOf a.1 a.2 cache).1

/-! ## Cross-body lists and the kernel's evaluation order
(source lines 2898-2940, 3075-3341)

The cross-body (x) lists keep a tuple iff at least one atom of the tuple
lives on a body different from the focal atom's.  The force kernel walks the
DuMM bodies in order, each body's atom list in order, and for each focal
atom its cross-body lists with the deduplication skips
(`if (a2num < a1num) continue` for stretch, `a3num` for bend, `a4num` for
torsion, no skip for improper entries); nonbonded pairs come from the
body-pair loop with the second body strictly after the first. -/

/-- `a.xbond12` (source lines 2901-2904): the sorted 1-2 list filtered to
partners on another body. -/
def xbond12 (adj : ℕ → List ℕ) (bodyOf : ℕ → ℕ) (a : ℕ) : List ℕ :=
  (sortNat (adj a)).filter (fun b => bodyOf b ≠ bodyOf a)

/-- `a.xbond13` (source lines 2906-2910). -/
def xbond13 (adj : ℕ → List ℕ) (bodyOf : ℕ → ℕ) (a : ℕ) : List (ℕ × ℕ) :=
  (buildNeighborhoods adj a).bond13.filter
    (fun p => bodyOf p.1 ≠ bodyOf a ∨ bodyOf p.2 ≠ bodyOf a)

/-- `a.xbond14` (source lines 2916-2921). -/
def xbond14 (adj : ℕ → List ℕ) (bodyOf : ℕ → ℕ) (a : ℕ) :
    List (ℕ × ℕ × ℕ) :=
  (buildNeighborhoods adj a).bond14.filter
    (fun t => bodyOf t.1 ≠ bodyOf a ∨ bodyOf t.2.1 ≠ bodyOf a ∨
      bodyOf t.2.2 ≠ bodyOf a)

/-- The flattened realized atom population: every DuMM body's `allAtoms`
list in order (each realized atom is on exactly one body). -/
def allAtoms (bodies : List (List ℕ)) : List ℕ := bodies.flatMap id

/-- The kernel's bonded evaluation sequence: for each body in order, for
each focal atom on it, one evaluation per entry of the per-focal list `f`,
tagged with the focal atom. -/
def bondedEvals {β : Type} (bodies : List (List ℕ)) (f : ℕ → List β) :
    List (ℕ × β) :=
  bodies.flatMap (fun alist => alist.flatMap (fun a1 =>
    (f a1).map (fun y => (a1, y))))

/-- Stretch evaluations (source lines 3096-3125): cross-body 1-2 partners,
skipped when the partner index is below the focal index. -/
def stretchEvals (adj : ℕ → List ℕ) (bodyOf : ℕ → ℕ)
    (bodies : List (List ℕ)) : List (ℕ × ℕ) :=
  bondedEvals bodies (fun a1 =>
    (xbond12 adj bodyOf a1).filter (fun a2 => ¬ a2 < a1))

/-- Bend evaluations (source lines 3127-3159): cross-body 1-3 tuples,
skipped when the last atom's index is below the focal index. -/
def bendEvals (adj : ℕ → List ℕ) (bodyOf : ℕ → ℕ)
    (bodies : List (List ℕ)) : List (ℕ × ℕ × ℕ) :=
  bondedEvals bodies (fun a1 =>
    (xbond13 adj bodyOf a1).filter (fun p => ¬ p.2 < a1))

/-- Torsion evaluations (source lines 3161-3200): cross-body 1-4 tuples,
skipped when the last atom's index is below the focal index. -/
def torsionEvals (adj : ℕ → List ℕ) (bodyOf : ℕ → ℕ)
    (bodies : List (List ℕ)) : List (ℕ × ℕ × ℕ × ℕ) :=
  bondedEvals bodies (fun a1 =>
    (xbond14 adj bodyOf a1).filter (fun t => ¬ t.2.2 < a1))

/-- Improper-torsion evaluations (source lines 3202-3245): every entry of
every focal atom's `aImproperTorsion14` list, with no skip (the dedup test
is commented out in the source). -/
def improperEvals (bodies : List (List ℕ)) (aImp : ℕ → List (ℕ × ℕ × ℕ)) :
    List (ℕ × (ℕ × ℕ × ℕ)) :=
  bondedEvals bodies aImp

/-- Nonbonded evaluations (source lines 3286-3338): for each body, for each
focal atom on it, one evaluation per atom of every *later* body. -/
def nonbondedEvals : List (List ℕ) → List (ℕ × ℕ)
  | [] => []
  | l :: rest =>
    (l.flatMap (fun a1 => (rest.flatMap id).map (fun a2 => (a1, a2)))) ++
      nonbondedEvals rest

/-- The well-formedness of a realized topology that the kernel relies on:
bond12 lists are duplicate-free, symmetric and irreflexive on the realized
atom population; every realized atom appears exactly once across the DuMM
bodies; atoms of one body share their mobilized body, atoms of different
DuMM bodies have different mobilized bodies. -/
structure KernelHyps (adj : ℕ → List ℕ) (bodyOf : ℕ → ℕ)
    (bodies : List (List ℕ)) : Prop where
  nodupAdj : ∀ a ∈ allAtoms bodies, (adj a).Nodup
  symmAdj : ∀ a ∈ allAtoms bodies, ∀ b ∈ adj a, a ∈ adj b ∧ b ∈ allAtoms bodies
  irreflAdj : ∀ a ∈ allAtoms bodies, a ∉ adj a
  nodupAtoms : (allAtoms bodies).Nodup
  sameBody : ∀ l ∈ bodies, ∀ x ∈ l, ∀ y ∈ l, bodyOf x = bodyOf y
  diffBody : bodies.Pairwise (fun l1 l2 => ∀ x ∈ l1, ∀ y ∈ l2, bodyOf x ≠ bodyOf y)

/-- Occurrence count of an element in a list ("evaluated exactly once" is
`countOcc = 1` over the kernel's evaluation sequence). -/
def countOcc {β : Type} [DecidableEq β] (x : β) : List β → ℕ
  | [] => 0
  | y :: t => (if y = x then 1 else 0) + countOcc x t

/-! ## Theorems -/

theorem canonicalize_reversed {α : Type} [LinearOrder α] (q : IndexQuad α) :
    q.reversed.canonicalize = q.canonicalize := by
  obtain ⟨a, b, c, d⟩ := q
  simp only [IndexQuad.canonicalize, IndexQuad.reversed]
  rcases lt_trichotomy a d with had | had | had
  · rw [if_pos (Or.inl had), if_neg]
    rintro (h | ⟨h1, -⟩)
    · exact absurd had (not_lt.mpr h.le)
    · exact absurd h1 (ne_of_lt had)
  · subst had
    rcases lt_trichotomy b c with hbc | hbc | hbc
    · rw [if_pos (Or.inr ⟨rfl, hbc⟩), if_neg]
      rintro (h | ⟨-, h2⟩)
      · exact absurd h (lt_irrefl a)
      · exact absurd hbc (not_lt.mpr h2.le)
    · subst hbc
      have hcond : ¬(a > a ∨ (a = a ∧ b > b)) := by
        rintro (h | ⟨-, h2⟩)
        · exact absurd h (lt_irrefl a)
        · exact absurd h2 (lt_irrefl b)
      rw [if_neg hcond]
    · rw [if_neg, if_pos (Or.inr ⟨rfl, hbc⟩)]
      rintro (h | ⟨-, h2⟩)
      · exact absurd h (lt_irrefl a)
      · exact absurd hbc (not_lt.mpr h2.le)
  · rw [if_neg, if_pos (Or.inl had)]
    rintro (h | ⟨h1, -⟩)
    · exact absurd h (not_lt.mpr had.le)
    · exact absurd h1 (ne_of_lt had)

/-! ## Van der Waals combining rules (source lines 209-305, 1160-1179) -/

theorem arithmeticMean_comm (x y : ℝ) : arithmeticMean x y = arithmeticMean y x := by
  unfold arithmeticMean; ring

theorem geometricMean_comm (x y : ℝ) : geometricMean x y = geometricMean y x := by
  unfold geometricMean; rw [mul_comm]

theorem harmonicMean_comm (x y : ℝ) : harmonicMean x y = harmonicMean y x := by
  unfold harmonicMean; rw [add_comm y x]; ring_nf

theorem cubicMean_comm (x y : ℝ) : cubicMean x y = cubicMean y x := by
  unfold cubicMean; rw [add_comm (y*y*y), add_comm (y*y)]

theorem hhgMean_comm (x y : ℝ) : hhgMean x y = hhgMean y x := by
  unfold hhgMean; rw [harmonicMean_comm x y, geometricMean_comm x y]

theorem combineRule_comm (rule : VdwMixingRule) (ri rj ei ej : ℝ) :
    combineRule rule ri rj ei ej = combineRule rule rj ri ej ei := by
  cases rule <;>
    simp only [combineRule, vdwCombineWaldmanHagler, vdwCombineHalgrenHHG,
      vdwCombineJorgensen, vdwCombineLorentzBerthelot, vdwCombineKong,
      arithmeticMean_comm, geometricMean_comm, cubicMean_comm, hhgMean_comm]

theorem applyMixingRule_eq (rule : VdwMixingRule) (ri rj ei ej : ℝ) :
    applyMixingRule rule ri rj ei ej =
      (2 * (combineRule rule ri rj ei ej).1, (combineRule rule ri rj ei ej).2) := by
  cases rule <;> rfl

/-- C4: the normal-torsion canonicalization reverses the whole quad exactly
when the outer endpoints are out of order, or are equal and the middle pair
is out of order; consequently a lookup with the fully reversed quad
(c4,c3,c2,c1) retrieves the same table entry as a lookup with (c1,c2,c3,c4),
so both orderings yield the same torsion parameters. -/
theorem quad_canonicalization_and_reversed_lookup {α β : Type} [LinearOrder α] :
    (∀ q : IndexQuad α,
      q.canonicalize =
        if q.a > q.d ∨ (q.a = q.d ∧ q.b > q.c) then q.reversed else q) ∧
    (∀ (table : List (IndexQuad α × β)) (c1 c2 c3 c4 : α),
      getBondTorsion table c4 c3 c2 c1 = getBondTorsion table c1 c2 c3 c4) := by
  refine ⟨fun q => rfl, fun table c1 c2 c3 c4 => ?_⟩
  have h : (⟨c4, c3, c2, c1⟩ : IndexQuad α) =
      (⟨c1, c2, c3, c4⟩ : IndexQuad α).reversed := rfl
  simp only [getBondTorsion, h, canonicalize_reversed]

/-- C8: for each of the five supported van der Waals combining rules and all
radius/well-depth inputs, the mixed parameters are symmetric in the two
classes, and the returned dmin equals twice the combined radius rmix. -/
theorem applyMixingRule_symm_and_dmin (rule : VdwMixingRule) (ri rj ei ej : ℝ) :
    applyMixingRule rule ri rj ei ej = applyMixingRule rule rj ri ej ei ∧
    (applyMixingRule rule ri rj ei ej).1 =
      2 * (combineRule rule ri rj ei ej).1 := by
  refine ⟨?_, by rw [applyMixingRule_eq]⟩
  rw [applyMixingRule_eq, applyMixingRule_eq, combineRule_comm]

/-! ## Registries: atom classes and charged atom types (source lines 331-447)

Numeric parameters are embedded over an arbitrary `LinearOrderedField α`
(instantiated at `ℚ` in concrete evaluations, `ℝ` being another instance).
A call either commits (`ok`), throws leaving the modelled state as the
aborted call left it (`err`), or runs into C++ undefined behavior (`ub`,
an out-of-bounds `std::vector` write). -/

theorem setParameters_accept_undefined_slot :
    ¬ (AtomClass.invalid : AtomClass ℚ).isValid ∧
    setAtomClassVdwParameters [(AtomClass.invalid : AtomClass ℚ)] 0 1 1 =
      .ok [{ (AtomClass.invalid : AtomClass ℚ) with
              vdwRadius := 1, vdwWellDepth := 1 }] ∧
    [{ (AtomClass.invalid : AtomClass ℚ) with
        vdwRadius := 1, vdwWellDepth := 1 }] ≠ [(AtomClass.invalid : AtomClass ℚ)] ∧
    ¬ (ChargedAtomType.invalid : ChargedAtomType ℚ).isValid ∧
    setChargedAtomTypeCharge [(ChargedAtomType.invalid : ChargedAtomType ℚ)] 0 5 =
      .ok [{ (ChargedAtomType.invalid : ChargedAtomType ℚ) with charge := 5 }] ∧
    [{ (ChargedAtomType.invalid : ChargedAtomType ℚ) with charge := 5 }] ≠
      [(ChargedAtomType.invalid : ChargedAtomType ℚ)] := by
  refine ⟨by decide, ?_, by decide, by decide, ?_, by decide⟩ <;> rfl

/-- C9 amended: neither setter checks that the index refers to an
already-defined entity.  For any nonnegative in-bounds index (and nonnegative
vdW parameters), the call succeeds and overwrites the slot's fields, whether
or not the slot holds a defined (valid) entry; no InvalidKey error is
raised.  (A negative index fails the nonnegativity check; an out-of-bounds
index is an unchecked out-of-bounds `std::vector` write.) -/
theorem setParameters_no_definedness_check {α : Type} [LinearOrderedField α]
    (atomClasses : List (AtomClass α)) (chargedAtomTypes : List (ChargedAtomType α))
    (i j : ℕ) (r e q : α)
    (hi : i < atomClasses.length) (hj : j < chargedAtomTypes.length)
    (hr : 0 ≤ r) (he : 0 ≤ e) :
    setAtomClassVdwParameters atomClasses (i : Int) r e =
      .ok (atomClasses.set i
        { atomClasses.get ⟨i, hi⟩ with vdwRadius := r, vdwWellDepth := e }) ∧
    setChargedAtomTypeCharge chargedAtomTypes (j : Int) q =
      .ok (chargedAtomTypes.set j
        { chargedAtomTypes.get ⟨j, hj⟩ with charge := q }) := by
  constructor
  · rw [setAtomClassVdwParameters, if_neg, if_neg, if_neg, dif_pos]
    · simp [Int.toNat_natCast]
    · simpa [Int.toNat_natCast] using hi
    · simpa using he
    · simpa using hr
    · simp
  · rw [setChargedAtomTypeCharge, if_neg, dif_pos]
    · simp [Int.toNat_natCast]
    · simpa [Int.toNat_natCast] using hj
    · simp

/-! ## Torsion parameter tables (source lines 541-644, 1743-1804, 1813-1933)

`TorsionTerm` stores the phase already converted to radians
(`th0InDeg*DuMM::Deg2Rad`); the conversion constant `π/180` is carried as an
explicit parameter `deg2rad` of the embedding so the table logic stays
field-generic. -/

/-- Witness for the amended C9 theorem at a concrete registry. -/
theorem setParameters_no_definedness_check_witness :
    setAtomClassVdwParameters [(AtomClass.invalid : AtomClass ℚ)] ((0 : ℕ) : Int) 1 1 =
      .ok [{ (AtomClass.invalid : AtomClass ℚ) with
              vdwRadius := 1, vdwWellDepth := 1 }] ∧
    setChargedAtomTypeCharge [(ChargedAtomType.invalid : ChargedAtomType ℚ)]
        ((0 : ℕ) : Int) 5 =
      .ok [{ (ChargedAtomType.invalid : ChargedAtomType ℚ) with charge := 5 }] :=
  setParameters_no_definedness_check [AtomClass.invalid] [ChargedAtomType.invalid]
    0 0 1 1 5 (by decide) (by decide) (by decide) (by decide)

/-- C3 counterexample: `defineAmberImproperTorsion` has no identical-entry
acceptance path.  With a table already holding key (0,0,0,0) with exactly the
term set the call would build, the call *fails* instead of returning
successfully as the claim states (the table is unchanged). -/
theorem defineAmberImproperTorsion_rejects_identical :
    BondTorsion.sameTerms
      (⟨⟨0, 0, 0, 0⟩, [⟨2, 1, 0⟩]⟩ : BondTorsion ℚ)
      ⟨⟨0, 0, 0, 0⟩, buildTorsionTerms (1 : ℚ) 2 1 0 (-1) 0 0 (-1) 0 0⟩ ∧
    defineAmberImproperTorsion (1 : ℚ) [⟨0, 1, 0, 1, 1⟩]
        [(⟨0, 0, 0, 0⟩, ⟨⟨0, 0, 0, 0⟩, [⟨2, 1, 0⟩]⟩)]
        0 0 0 0 2 1 0 (-1) 0 0 (-1) 0 0 =
      .err [(⟨0, 0, 0, 0⟩, ⟨⟨0, 0, 0, 0⟩, [⟨2, 1, 0⟩]⟩)] := by
  constructor
  · simp +decide [BondTorsion.sameTerms, buildTorsionTerms]
  · decide

/-- C3 amended: for `defineBondTorsion` (canonicalized key), redefinition
with the identical term set is silently accepted and a differing term set is
an error, the table unchanged either way; `defineAmberImproperTorsion`
(uncanonicalized key) rejects *any* redefinition of an occupied key,
identical or not, leaving the table unchanged. -/
theorem defineTorsion_redefinition_behavior {α : Type} [LinearOrderedField α]
    (deg2rad : α) (atomClasses : List (AtomClass α))
    (tblSame tblDiff tblImp : List (IndexQuad Int × BondTorsion α))
    (c1 c2 c3 c4 : Int) (p1 : Int) (a1 f1 : α) (p2 : Int) (a2 f2 : α)
    (p3 : Int) (a3 f3 : α) (oldS oldD oldI : BondTorsion α)
    (hcheck : checkTorsion atomClasses c1 c2 c3 c4 p1 a1 f1 p2 a2 f2 p3 a3 f3)
    (hS : findQuad tblSame (IndexQuad.canonicalize ⟨c1, c2, c3, c4⟩) = some oldS)
    (hSeq : oldS.sameTerms
      ⟨IndexQuad.canonicalize ⟨c1, c2, c3, c4⟩,
       buildTorsionTerms deg2rad p1 a1 f1 p2 a2 f2 p3 a3 f3⟩)
    (hD : findQuad tblDiff (IndexQuad.canonicalize ⟨c1, c2, c3, c4⟩) = some oldD)
    (hDne : ¬ oldD.sameTerms
      ⟨IndexQuad.canonicalize ⟨c1, c2, c3, c4⟩,
       buildTorsionTerms deg2rad p1 a1 f1 p2 a2 f2 p3 a3 f3⟩)
    (hI : findQuad tblImp (⟨c1, c2, c3, c4⟩ : IndexQuad Int) = some oldI) :
    defineBondTorsion deg2rad atomClasses tblSame c1 c2 c3 c4
        p1 a1 f1 p2 a2 f2 p3 a3 f3 = .ok tblSame ∧
    defineBondTorsion deg2rad atomClasses tblDiff c1 c2 c3 c4
        p1 a1 f1 p2 a2 f2 p3 a3 f3 = .err tblDiff ∧
    defineAmberImproperTorsion deg2rad atomClasses tblImp c1 c2 c3 c4
        p1 a1 f1 p2 a2 f2 p3 a3 f3 = .err tblImp := by
  refine ⟨?_, ?_, ?_⟩
  · unfold defineBondTorsion
    rw [if_neg (not_not_intro hcheck), hS]
    exact if_pos hSeq
  · unfold defineBondTorsion
    rw [if_neg (not_not_intro hcheck), hD]
    exact if_neg hDne
  · unfold defineAmberImproperTorsion
    rw [if_neg (not_not_intro hcheck), hI]

/-- Witness for the amended C3 theorem at concrete tables over `ℚ`. -/
theorem defineTorsion_redefinition_behavior_witness :
    defineBondTorsion (1 : ℚ) [⟨0, 1, 0, 1, 1⟩]
        [(⟨0, 0, 0, 0⟩, ⟨⟨0, 0, 0, 0⟩, [⟨2, 1, 0⟩]⟩)]
        0 0 0 0 2 1 0 (-1) 0 0 (-1) 0 0 =
      .ok [(⟨0, 0, 0, 0⟩, ⟨⟨0, 0, 0, 0⟩, [⟨2, 1, 0⟩]⟩)] ∧
    defineBondTorsion (1 : ℚ) [⟨0, 1, 0, 1, 1⟩]
        [(⟨0, 0, 0, 0⟩, ⟨⟨0, 0, 0, 0⟩, [⟨3, 1, 0⟩]⟩)]
        0 0 0 0 2 1 0 (-1) 0 0 (-1) 0 0 =
      .err [(⟨0, 0, 0, 0⟩, ⟨⟨0, 0, 0, 0⟩, [⟨3, 1, 0⟩]⟩)] ∧
    defineAmberImproperTorsion (1 : ℚ) [⟨0, 1, 0, 1, 1⟩]
        [(⟨0, 0, 0, 0⟩, ⟨⟨0, 0, 0, 0⟩, [⟨2, 1, 0⟩]⟩)]
        0 0 0 0 2 1 0 (-1) 0 0 (-1) 0 0 =
      .err [(⟨0, 0, 0, 0⟩, ⟨⟨0, 0, 0, 0⟩, [⟨2, 1, 0⟩]⟩)] :=
  defineTorsion_redefinition_behavior (1 : ℚ) [⟨0, 1, 0, 1, 1⟩]
    [(⟨0, 0, 0, 0⟩, ⟨⟨0, 0, 0, 0⟩, [⟨2, 1, 0⟩]⟩)]
    [(⟨0, 0, 0, 0⟩, ⟨⟨0, 0, 0, 0⟩, [⟨3, 1, 0⟩]⟩)]
    [(⟨0, 0, 0, 0⟩, ⟨⟨0, 0, 0, 0⟩, [⟨2, 1, 0⟩]⟩)]
    0 0 0 0 2 1 0 (-1) 0 0 (-1) 0 0
    ⟨⟨0, 0, 0, 0⟩, [⟨2, 1, 0⟩]⟩ ⟨⟨0, 0, 0, 0⟩, [⟨3, 1, 0⟩]⟩
    ⟨⟨0, 0, 0, 0⟩, [⟨2, 1, 0⟩]⟩
    (by decide) (by decide)
    (by simp +decide [BondTorsion.sameTerms, buildTorsionTerms])
    (by decide)
    (by simp +decide [BondTorsion.sameTerms, buildTorsionTerms])
    (by decide)

/-- C7: for a cross-body 1-2 bond with separation d > 0, stretch parameters
(k, d0) and global stretch scale g, the energy added is g·k·(d−d0)^2 with no
factor of 1/2, the force applied to the partner atom is the bond vector
scaled by the signed magnitude −2·g·k·(d−d0)/d, and the linear force
components applied to the two bodies are equal and opposite. -/
theorem stretch_kernel_formulas (bsK bsD0 g : ℝ)
    (a1Station a1Pos a2Station a2Pos : Vec3)
    (_hd : 0 < (Vec3.sub a2Pos a1Pos).norm) :
    (stretchKernel bsK bsD0 g a1Station a1Pos a2Station a2Pos).1 =
      g * bsK * ((Vec3.sub a2Pos a1Pos).norm - bsD0) ^ 2 ∧
    (stretchKernel bsK bsD0 g a1Station a1Pos a2Station a2Pos).2.1.force =
      Vec3.smul
        (-2 * (g * bsK) * ((Vec3.sub a2Pos a1Pos).norm - bsD0) /
          (Vec3.sub a2Pos a1Pos).norm)
        (Vec3.sub a2Pos a1Pos) ∧
    Vec3.add (stretchKernel bsK bsD0 g a1Station a1Pos a2Station a2Pos).2.1.force
        (stretchKernel bsK bsD0 g a1Station a1Pos a2Station a2Pos).2.2.force =
      Vec3.zero := by
  refine ⟨?_, ?_, ?_⟩
  · show g * bsK * ((Vec3.sub a2Pos a1Pos).norm - bsD0) *
        ((Vec3.sub a2Pos a1Pos).norm - bsD0) = _
    ring
  · show Vec3.smul (-2 * (g * bsK) * ((Vec3.sub a2Pos a1Pos).norm - bsD0) /
        (Vec3.sub a2Pos a1Pos).norm) (Vec3.sub a2Pos a1Pos) = _
    rfl
  · show Vec3.add (Vec3.smul _ _) (Vec3.neg (Vec3.smul _ _)) = Vec3.zero
    simp [Vec3.add, Vec3.neg, Vec3.smul, Vec3.zero]

/-- Witness for the stretch-kernel theorem at a unit separation along x. -/
theorem stretch_kernel_formulas_witness :
    0 < (Vec3.sub ⟨1, 0, 0⟩ ⟨0, 0, 0⟩).norm ∧
    ((stretchKernel 1 0 1 ⟨0, 0, 0⟩ ⟨0, 0, 0⟩ ⟨0, 0, 0⟩ ⟨1, 0, 0⟩).1 =
      1 * 1 * ((Vec3.sub ⟨1, 0, 0⟩ ⟨0, 0, 0⟩).norm - 0) ^ 2 ∧
    (stretchKernel 1 0 1 ⟨0, 0, 0⟩ ⟨0, 0, 0⟩ ⟨0, 0, 0⟩ ⟨1, 0, 0⟩).2.1.force =
      Vec3.smul
        (-2 * (1 * 1) * ((Vec3.sub ⟨1, 0, 0⟩ ⟨0, 0, 0⟩).norm - 0) /
          (Vec3.sub ⟨1, 0, 0⟩ ⟨0, 0, 0⟩).norm)
        (Vec3.sub ⟨1, 0, 0⟩ ⟨0, 0, 0⟩) ∧
    Vec3.add (stretchKernel 1 0 1 ⟨0, 0, 0⟩ ⟨0, 0, 0⟩ ⟨0, 0, 0⟩ ⟨1, 0, 0⟩).2.1.force
        (stretchKernel 1 0 1 ⟨0, 0, 0⟩ ⟨0, 0, 0⟩ ⟨0, 0, 0⟩ ⟨1, 0, 0⟩).2.2.force =
      Vec3.zero) :=
  ⟨by simp [Vec3.sub, Vec3.norm, Vec3.dot, Real.sqrt_one],
   stretch_kernel_formulas 1 0 1 ⟨0, 0, 0⟩ ⟨0, 0, 0⟩ ⟨0, 0, 0⟩ ⟨1, 0, 0⟩
     (by simp [Vec3.sub, Vec3.norm, Vec3.dot, Real.sqrt_one])⟩

/-- C10: whenever one of the two plane normals of `BondTorsion::periodic` is
zero (`tt == 0 || uu == 0`, e.g. r−x parallel to the axis y−x or coincident
atoms), the routine returns energy 0 and exactly zero force on all four
atoms, irrespective of the stored torsion terms and the scale factor; in
particular the four forces sum to zero in this branch. -/
theorem periodic_degenerate_branch (terms : List (TorsionTerm ℝ)) (scale : ℝ)
    (rG xG yG sG : Vec3)
    (h : (torsionT rG xG yG sG).dot (torsionT rG xG yG sG) = 0 ∨
         (torsionU rG xG yG sG).dot (torsionU rG xG yG sG) = 0) :
    btPeriodic terms scale rG xG yG sG =
      ⟨none, 0, Vec3.zero, Vec3.zero, Vec3.zero, Vec3.zero⟩ ∧
    Vec3.add
        (Vec3.add (btPeriodic terms scale rG xG yG sG).rf
          (btPeriodic terms scale rG xG yG sG).xf)
        (Vec3.add (btPeriodic terms scale rG xG yG sG).yf
          (btPeriodic terms scale rG xG yG sG).sf) = Vec3.zero := by
  have e : btPeriodic terms scale rG xG yG sG =
      ⟨none, 0, Vec3.zero, Vec3.zero, Vec3.zero, Vec3.zero⟩ := by
    unfold btPeriodic
    rw [if_pos h]
  refine ⟨e, ?_⟩
  rw [e]
  simp [Vec3.add, Vec3.zero]

/-- Witness for the degenerate-torsion theorem: atoms r and x coincide, so
the first plane normal is zero. -/
theorem periodic_degenerate_branch_witness :
    ((torsionT ⟨0, 0, 0⟩ ⟨0, 0, 0⟩ ⟨1, 0, 0⟩ ⟨2, 0, 0⟩).dot
        (torsionT ⟨0, 0, 0⟩ ⟨0, 0, 0⟩ ⟨1, 0, 0⟩ ⟨2, 0, 0⟩) = 0 ∨
      (torsionU ⟨0, 0, 0⟩ ⟨0, 0, 0⟩ ⟨1, 0, 0⟩ ⟨2, 0, 0⟩).dot
        (torsionU ⟨0, 0, 0⟩ ⟨0, 0, 0⟩ ⟨1, 0, 0⟩ ⟨2, 0, 0⟩) = 0) ∧
    btPeriodic [⟨3, 5, 0⟩] 7 ⟨0, 0, 0⟩ ⟨0, 0, 0⟩ ⟨1, 0, 0⟩ ⟨2, 0, 0⟩ =
      ⟨none, 0, Vec3.zero, Vec3.zero, Vec3.zero, Vec3.zero⟩ :=
  ⟨Or.inl (by simp [torsionT, torsionAxis, Vec3.sub, Vec3.dot, Vec3.cross,
      Vec3.smul, Real.sqrt_one]),
   (periodic_degenerate_branch [⟨3, 5, 0⟩] 7 ⟨0, 0, 0⟩ ⟨0, 0, 0⟩ ⟨1, 0, 0⟩
      ⟨2, 0, 0⟩
      (Or.inl (by simp [torsionT, torsionAxis, Vec3.sub, Vec3.dot, Vec3.cross,
        Vec3.smul, Real.sqrt_one]))).1⟩

theorem scalePass_apply (vVal cVal : ℝ) (ixs : List ℕ)
    (p : (ℕ → ℝ) × (ℕ → ℝ)) (i : ℕ) :
    (scalePass vVal cVal ixs p).1 i = (if i ∈ ixs then vVal else p.1 i) ∧
    (scalePass vVal cVal ixs p).2 i = (if i ∈ ixs then cVal else p.2 i) := by
  induction ixs generalizing p with
  | nil => simp [scalePass]
  | cons a t ih =>
    have step : scalePass vVal cVal (a :: t) p =
        scalePass vVal cVal t
          (Function.update p.1 a vVal, Function.update p.2 a cVal) := rfl
    rw [step]
    rcases ih (Function.update p.1 a vVal, Function.update p.2 a cVal) with ⟨h1, h2⟩
    rw [h1, h2]
    by_cases hmem : i ∈ t <;> by_cases heq : i = a <;>
      simp [Function.update_apply, List.mem_cons, hmem, heq]

theorem scalePass_append (vVal cVal : ℝ) (l1 l2 : List ℕ)
    (p : (ℕ → ℝ) × (ℕ → ℝ)) :
    scalePass vVal cVal (l1 ++ l2) p = scalePass vVal cVal l2 (scalePass vVal cVal l1 p) := by
  unfold scalePass
  exact List.foldl_append _ _ _ _

/-- The unscale routine is one uniform write of 1 over the touched index
list. -/
theorem unscale_eq_scalePass (g : ScaleFactors) (a : AtomScaleView)
    (p : (ℕ → ℝ) × (ℕ → ℝ)) :
    unscaleBondedAtoms g a p = scalePass 1 1 (scaleTouchList g a) p := by
  unfold unscaleBondedAtoms scaleTouchList
  by_cases h14 : g.vdwScale14 ≠ 1 ∨ g.coulombScale14 ≠ 1 <;>
    by_cases h15 : g.vdwScale15 ≠ 1 ∨ g.coulombScale15 ≠ 1 <;>
      simp [h14, h15, scalePass_append, scalePass]

theorem scale_untouched (g : ScaleFactors) (a : AtomScaleView)
    (p : (ℕ → ℝ) × (ℕ → ℝ)) (i : ℕ) (hn : i ∉ scaleTouchList g a) :
    (scaleBondedAtoms g a p).1 i = p.1 i ∧
    (scaleBondedAtoms g a p).2 i = p.2 i := by
  unfold scaleTouchList at hn
  by_cases h14 : g.vdwScale14 ≠ 1 ∨ g.coulombScale14 ≠ 1
  · by_cases h15 : g.vdwScale15 ≠ 1 ∨ g.coulombScale15 ≠ 1
    · rw [if_pos h14, if_pos h15] at hn
      simp only [List.mem_append, not_or] at hn
      simp only [scaleBondedAtoms, if_pos h14, if_pos h15]
      rw [(scalePass_apply _ _ _ _ i).1, (scalePass_apply _ _ _ _ i).2,
        (scalePass_apply _ _ _ _ i).1, (scalePass_apply _ _ _ _ i).2,
        (scalePass_apply _ _ _ _ i).1, (scalePass_apply _ _ _ _ i).2,
        (scalePass_apply _ _ _ _ i).1, (scalePass_apply _ _ _ _ i).2]
      simp [hn.1.1.1, hn.1.1.2, hn.1.2, hn.2]
    · rw [if_pos h14, if_neg h15] at hn
      simp only [List.mem_append, not_or] at hn
      simp only [scaleBondedAtoms, if_pos h14, if_neg h15]
      rw [(scalePass_apply _ _ _ _ i).1, (scalePass_apply _ _ _ _ i).2,
        (scalePass_apply _ _ _ _ i).1, (scalePass_apply _ _ _ _ i).2,
        (scalePass_apply _ _ _ _ i).1, (scalePass_apply _ _ _ _ i).2]
      simp [hn.1.1.1, hn.1.1.2, hn.1.2]
  · by_cases h15 : g.vdwScale15 ≠ 1 ∨ g.coulombScale15 ≠ 1
    · rw [if_neg h14, if_pos h15] at hn
      simp only [List.mem_append, not_or] at hn
      simp only [scaleBondedAtoms, if_neg h14, if_pos h15]
      rw [(scalePass_apply _ _ _ _ i).1, (scalePass_apply _ _ _ _ i).2,
        (scalePass_apply _ _ _ _ i).1, (scalePass_apply _ _ _ _ i).2,
        (scalePass_apply _ _ _ _ i).1, (scalePass_apply _ _ _ _ i).2]
      simp [hn.1.1.1, hn.1.1.2, hn.2]
    · rw [if_neg h14, if_neg h15] at hn
      simp only [List.mem_append, not_or] at hn
      simp only [scaleBondedAtoms, if_neg h14, if_neg h15]
      rw [(scalePass_apply _ _ _ _ i).1, (scalePass_apply _ _ _ _ i).2,
        (scalePass_apply _ _ _ _ i).1, (scalePass_apply _ _ _ _ i).2]
      simp [hn.1.1.1, hn.1.1.2]

/-- C6: starting from per-atom scale arrays identically 1,
`scaleBondedAtoms(a)` followed by `unscaleBondedAtoms(a)` restores both the
vdwScale and coulombScale arrays to identically 1: every index set by the
scale pass (drawn from a's cross-body 1-2 list and cross-body shortest-path
1-3/1-4/1-5 lists under the same conditional guards) is reset by the unscale
pass, and untouched indices are never moved off 1. -/
theorem scale_then_unscale_restores_identity (g : ScaleFactors)
    (a : AtomScaleView) (p : (ℕ → ℝ) × (ℕ → ℝ))
    (hv : ∀ i, p.1 i = 1) (hc : ∀ i, p.2 i = 1) (i : ℕ) :
    (unscaleBondedAtoms g a (scaleBondedAtoms g a p)).1 i = 1 ∧
    (unscaleBondedAtoms g a (scaleBondedAtoms g a p)).2 i = 1 := by
  rw [unscale_eq_scalePass]
  rw [(scalePass_apply _ _ _ _ i).1, (scalePass_apply _ _ _ _ i).2]
  by_cases ht : i ∈ scaleTouchList g a
  · simp [ht]
  · rcases scale_untouched g a p i ht with ⟨e1, e2⟩
    simp [ht, e1, e2, hv i, hc i]

/-- Witness for the scale/unscale restoration theorem on a small atom view. -/
theorem scale_then_unscale_restores_identity_witness :
    (unscaleBondedAtoms ⟨0, 0, 0, 0, 1, 1, 1, 1⟩ ⟨[2], [(3, 4)], [], []⟩
        (scaleBondedAtoms ⟨0, 0, 0, 0, 1, 1, 1, 1⟩ ⟨[2], [(3, 4)], [], []⟩
          (fun _ => 1, fun _ => 1))).1 4 = 1 ∧
    (unscaleBondedAtoms ⟨0, 0, 0, 0, 1, 1, 1, 1⟩ ⟨[2], [(3, 4)], [], []⟩
        (scaleBondedAtoms ⟨0, 0, 0, 0, 1, 1, 1, 1⟩ ⟨[2], [(3, 4)], [], []⟩
          (fun _ => 1, fun _ => 1))).2 4 = 1 :=
  scale_then_unscale_restores_identity ⟨0, 0, 0, 0, 1, 1, 1, 1⟩
    ⟨[2], [(3, 4)], [], []⟩ (fun _ => 1, fun _ => 1)
    (fun _ => rfl) (fun _ => rfl) 4

theorem spInner_vis_mono {E F : Type} (ext : E → ℕ → F) (e : E)
    (ns : List ℕ) (vis : Finset ℕ) : vis ⊆ (spInner ext e ns vis).2 := by
  induction ns generalizing vis with
  | nil => simp [spInner]
  | cons n rest ih =>
    by_cases h : n ∈ vis
    · simpa [spInner, h] using ih vis
    · simp only [spInner, if_neg h]
      exact (Finset.subset_insert n vis).trans (ih (insert n vis))

theorem spInner_out_mem {E F : Type} (ext : E → ℕ → F) (e : E)
    (ns : List ℕ) (vis : Finset ℕ) {f : F}
    (hf : f ∈ (spInner ext e ns vis).1) :
    ∃ n ∈ ns, n ∉ vis ∧ f = ext e n := by
  induction ns generalizing vis with
  | nil => simp [spInner] at hf
  | cons n rest ih =>
    by_cases h : n ∈ vis
    · rw [spInner, if_pos h] at hf
      obtain ⟨m, hm, hmv, rfl⟩ := ih vis hf
      exact ⟨m, List.mem_cons_of_mem _ hm, hmv, rfl⟩
    · rw [spInner, if_neg h] at hf
      rcases List.mem_cons.mp hf with rfl | hf'
      · exact ⟨n, List.mem_cons_self _ _, h, rfl⟩
      · obtain ⟨m, hm, hmv, rfl⟩ := ih (insert n vis) hf'
        exact ⟨m, List.mem_cons_of_mem _ hm,
          fun hv => hmv (Finset.mem_insert_of_mem hv), rfl⟩

theorem spInner_tgt_mem {E F : Type} (ext : E → ℕ → F) (tgt : F → ℕ)
    (htgt : ∀ e n, tgt (ext e n) = n) (e : E) (ns : List ℕ) (vis : Finset ℕ)
    {f : F} (hf : f ∈ (spInner ext e ns vis).1) :
    tgt f ∈ (spInner ext e ns vis).2 := by
  induction ns generalizing vis with
  | nil => simp [spInner] at hf
  | cons n rest ih =>
    by_cases h : n ∈ vis
    · rw [spInner, if_pos h] at hf ⊢
      exact ih vis hf
    · rw [spInner, if_neg h] at hf ⊢
      rcases List.mem_cons.mp hf with rfl | hf'
      · rw [htgt]
        exact spInner_vis_mono ext e rest (insert n vis)
          (Finset.mem_insert_self n vis)
      · exact ih (insert n vis) hf'

theorem spPass_vis_mono {E F : Type} (adj : ℕ → List ℕ) (lastOf : E → ℕ)
    (ext : E → ℕ → F) (es : List E) (vis : Finset ℕ) :
    vis ⊆ (spPass adj lastOf ext es vis).2 := by
  induction es generalizing vis with
  | nil => simp [spPass]
  | cons e rest ih =>
    simp only [spPass]
    exact (spInner_vis_mono ext e (adj (lastOf e)) vis).trans (ih _)

theorem spPass_out_mem {E F : Type} (adj : ℕ → List ℕ) (lastOf : E → ℕ)
    (ext : E → ℕ → F) (es : List E) (vis : Finset ℕ) {f : F}
    (hf : f ∈ (spPass adj lastOf ext es vis).1) :
    ∃ e ∈ es, ∃ n, n ∈ adj (lastOf e) ∧ n ∉ vis ∧ f = ext e n := by
  induction es generalizing vis with
  | nil => simp [spPass] at hf
  | cons e rest ih =>
    rw [spPass] at hf
    rcases List.mem_append.mp hf with hf' | hf'
    · obtain ⟨n, hn, hnv, rfl⟩ := spInner_out_mem ext e _ vis hf'
      exact ⟨e, List.mem_cons_self _ _, n, hn, hnv, rfl⟩
    · obtain ⟨e', he', n, hn, hnv, rfl⟩ := ih _ hf'
      exact ⟨e', List.mem_cons_of_mem _ he', n, hn,
        fun hv => hnv (spInner_vis_mono ext e (adj (lastOf e)) vis hv), rfl⟩

theorem spPass_tgt_mem {E F : Type} (adj : ℕ → List ℕ) (lastOf : E → ℕ)
    (ext : E → ℕ → F) (tgt : F → ℕ) (htgt : ∀ e n, tgt (ext e n) = n)
    (es : List E) (vis : Finset ℕ) {f : F}
    (hf : f ∈ (spPass adj lastOf ext es vis).1) :
    tgt f ∈ (spPass adj lastOf ext es vis).2 := by
  induction es generalizing vis with
  | nil => simp [spPass] at hf
  | cons e rest ih =>
    rw [spPass] at hf ⊢
    rcases List.mem_append.mp hf with hf' | hf'
    · exact spPass_vis_mono adj lastOf ext rest _
        (spInner_tgt_mem ext tgt htgt e _ vis hf')
    · exact ih _ hf'

theorem spPass_out_fresh {E F : Type} (adj : ℕ → List ℕ) (lastOf : E → ℕ)
    (ext : E → ℕ → F) (tgt : F → ℕ) (htgt : ∀ e n, tgt (ext e n) = n)
    (es : List E) (vis : Finset ℕ) {f : F}
    (hf : f ∈ (spPass adj lastOf ext es vis).1) : tgt f ∉ vis := by
  obtain ⟨e, -, n, -, hnv, rfl⟩ := spPass_out_mem adj lastOf ext es vis hf
  rw [htgt]
  exact hnv

/-- C5: after topology realization, each shortPath1N list (N in 3,4,5) is a
subset of the corresponding bond1N all-paths list; no target atom appears in
two different shortest-path lists of the same focal atom, and no
shortest-path target is the focal atom itself or one of its direct 1-2
neighbors — the breadth-first build grows a single visited set shared by the
three lists. -/
theorem shortPath_subset_and_disjoint (adj : ℕ → List ℕ) (anum : ℕ) :
    (∀ p ∈ (buildNeighborhoods adj anum).shortPath13,
        p ∈ (buildNeighborhoods adj anum).bond13) ∧
    (∀ t ∈ (buildNeighborhoods adj anum).shortPath14,
        t ∈ (buildNeighborhoods adj anum).bond14) ∧
    (∀ q ∈ (buildNeighborhoods adj anum).shortPath15,
        q ∈ (buildNeighborhoods adj anum).bond15) ∧
    (∀ p ∈ (buildNeighborhoods adj anum).shortPath13,
        p.2 ≠ anum ∧ p.2 ∉ adj anum) ∧
    (∀ t ∈ (buildNeighborhoods adj anum).shortPath14,
        t.2.2 ≠ anum ∧ t.2.2 ∉ adj anum) ∧
    (∀ q ∈ (buildNeighborhoods adj anum).shortPath15,
        q.2.2.2 ≠ anum ∧ q.2.2.2 ∉ adj anum) ∧
    (∀ p ∈ (buildNeighborhoods adj anum).shortPath13,
        ∀ t ∈ (buildNeighborhoods adj anum).shortPath14, p.2 ≠ t.2.2) ∧
    (∀ p ∈ (buildNeighborhoods adj anum).shortPath13,
        ∀ q ∈ (buildNeighborhoods adj anum).shortPath15, p.2 ≠ q.2.2.2) ∧
    (∀ t ∈ (buildNeighborhoods adj anum).shortPath14,
        ∀ q ∈ (buildNeighborhoods adj anum).shortPath15, t.2.2 ≠ q.2.2.2) := by
  simp only [buildNeighborhoods]
  set s12 := sortNat (adj anum) with hs12
  set vis0 : Finset ℕ := insert anum (adj anum).toFinset with hvis0
  set sp13 := spPass adj id (fun b n => (b, n)) s12 vis0 with hsp13
  set sp14 := spPass adj (fun bc => bc.2) (fun bc d => (bc.1, bc.2, d))
    (sortPair sp13.1) sp13.2 with hsp14
  set sp15 := spPass adj (fun t => t.2.2) (fun t e => (t.1, t.2.1, t.2.2, e))
    (sortTriple sp14.1) sp14.2 with hsp15
  -- membership characterizations of the shortest-path entries
  have m13 : ∀ p ∈ sp13.1, p.1 ∈ adj anum ∧ p.2 ∈ adj p.1 ∧ p.2 ∉ vis0 := by
    intro p hp
    obtain ⟨b, hb, n, hn, hnv, rfl⟩ := spPass_out_mem _ _ _ _ _ hp
    have hb' : b ∈ adj anum := by
      simpa [hs12, sortNat] using hb
    exact ⟨hb', hn, hnv⟩
  have m14 : ∀ t ∈ sp14.1, ∃ bc ∈ sp13.1, ∃ d, d ∈ adj bc.2 ∧ d ∉ sp13.2 ∧
      t = (bc.1, bc.2, d) := by
    intro t ht
    obtain ⟨bc, hbc, d, hd, hdv, rfl⟩ := spPass_out_mem _ _ _ _ _ ht
    exact ⟨bc, by simpa [sortPair] using hbc, d, hd, hdv, rfl⟩
  have m15 : ∀ q ∈ sp15.1, ∃ t ∈ sp14.1, ∃ e, e ∈ adj t.2.2 ∧ e ∉ sp14.2 ∧
      q = (t.1, t.2.1, t.2.2, e) := by
    intro q hq
    obtain ⟨t, ht, e, he, hev, rfl⟩ := spPass_out_mem _ _ _ _ _ hq
    exact ⟨t, by simpa [sortTriple] using ht, e, he, hev, rfl⟩
  -- targets land in the running visited set
  have t13 : ∀ p ∈ sp13.1, p.2 ∈ sp13.2 :=
    fun p hp => spPass_tgt_mem adj id (fun b n => (b, n)) (fun p => p.2)
      (fun _ _ => rfl) s12 vis0 hp
  have t14 : ∀ t ∈ sp14.1, t.2.2 ∈ sp14.2 :=
    fun t ht => spPass_tgt_mem adj (fun bc => bc.2) (fun bc d => (bc.1, bc.2, d))
      (fun t => t.2.2) (fun _ _ => rfl) (sortPair sp13.1) sp13.2 ht
  -- targets are fresh relative to the visited set the pass started from
  have f13 : ∀ p ∈ sp13.1, p.2 ∉ vis0 :=
    fun p hp => spPass_out_fresh adj id (fun b n => (b, n)) (fun p => p.2)
      (fun _ _ => rfl) s12 vis0 hp
  have f14 : ∀ t ∈ sp14.1, t.2.2 ∉ sp13.2 :=
    fun t ht => spPass_out_fresh adj (fun bc => bc.2)
      (fun bc d => (bc.1, bc.2, d)) (fun t => t.2.2) (fun _ _ => rfl)
      (sortPair sp13.1) sp13.2 ht
  have f15 : ∀ q ∈ sp15.1, q.2.2.2 ∉ sp14.2 :=
    fun q hq => spPass_out_fresh adj (fun t => t.2.2)
      (fun t e => (t.1, t.2.1, t.2.2, e)) (fun q => q.2.2.2) (fun _ _ => rfl)
      (sortTriple sp14.1) sp14.2 hq
  have hvis0sub : vis0 ⊆ sp13.2 := spPass_vis_mono _ _ _ _ _
  have hvis1sub : sp13.2 ⊆ sp14.2 := spPass_vis_mono _ _ _ _ _
  have hmemvis0 : ∀ x, x = anum ∨ x ∈ adj anum → x ∈ vis0 := by
    intro x hx
    rcases hx with rfl | hx
    · exact Finset.mem_insert_self _ _
    · exact Finset.mem_insert_of_mem (List.mem_toFinset.mpr hx)
  refine ⟨?_, ?_, ?_, ?_, ?_, ?_, ?_, ?_, ?_⟩
  · -- shortPath13 ⊆ bond13
    intro p hp
    have hp' : p ∈ sp13.1 := by simpa [sortPair] using hp
    obtain ⟨hb, hn, hnv⟩ := m13 p hp'
    have hne : p.2 ≠ anum := fun h => hnv (hmemvis0 _ (Or.inl h))
    simp only [List.mem_insertionSort, List.mem_flatMap, List.mem_map,
      List.mem_filter, sortPair, sortNat]
    exact ⟨p.1, by simpa [hs12, sortNat] using hb,
      p.2, ⟨hn, by simpa using hne⟩, rfl⟩
  · -- shortPath14 ⊆ bond14
    intro t ht
    have ht' : t ∈ sp14.1 := by simpa [sortTriple] using ht
    obtain ⟨bc, hbc, d, hd, hdv, rfl⟩ := m14 t ht'
    obtain ⟨hb, hn, hnv⟩ := m13 bc hbc
    have hd_ne_a : d ≠ anum := fun h => hdv (hvis0sub (hmemvis0 _ (Or.inl h)))
    have hd_ne_b : d ≠ bc.1 := fun h => hdv (hvis0sub (hmemvis0 _ (Or.inr (h ▸ hb))))
    -- bond13 membership of bc
    have hbc13 : bc ∈ sortPair ((sortNat (adj anum)).flatMap (fun b =>
        ((adj b).filter (fun n => n ≠ anum)).map (fun n => (b, n)))) := by
      have hne : bc.2 ≠ anum := fun h => hnv (hmemvis0 _ (Or.inl h))
      simp only [List.mem_insertionSort, List.mem_flatMap, List.mem_map,
        List.mem_filter, sortPair, sortNat]
      exact ⟨bc.1, by simpa [hs12, sortNat] using hb, bc.2, ⟨hn, by simpa using hne⟩,
        rfl⟩
    simp only [List.mem_insertionSort, List.mem_flatMap, List.mem_map,
      List.mem_filter, sortTriple]
    refine ⟨bc, ?_, d, ⟨hd, ?_⟩, rfl⟩
    · simpa [sortPair, hs12] using hbc13
    · simp [hd_ne_a, hd_ne_b]
  · -- shortPath15 ⊆ bond15
    intro q hq
    have hq' : q ∈ sp15.1 := by simpa [sortQuad] using hq
    obtain ⟨t, ht, e, he, hev, rfl⟩ := m15 q hq'
    obtain ⟨bc, hbc, d, hd, hdv, rfl⟩ := m14 t ht
    obtain ⟨hb, hn, hnv⟩ := m13 bc hbc
    have he_ne_a : e ≠ anum :=
      fun h => hev (hvis1sub (hvis0sub (hmemvis0 _ (Or.inl h))))
    have he_ne_b : e ≠ bc.1 :=
      fun h => hev (hvis1sub (hvis0sub (hmemvis0 _ (Or.inr (h ▸ hb)))))
    have he_ne_c : e ≠ bc.2 := fun h => hev (hvis1sub (h ▸ t13 bc hbc))
    have hd_ne_a : d ≠ anum := fun h => hdv (hvis0sub (hmemvis0 _ (Or.inl h)))
    have hd_ne_b : d ≠ bc.1 := fun h => hdv (hvis0sub (hmemvis0 _ (Or.inr (h ▸ hb))))
    have hne : bc.2 ≠ anum := fun h => hnv (hmemvis0 _ (Or.inl h))
    simp only [List.mem_insertionSort, List.mem_flatMap, List.mem_map,
      List.mem_filter, sortQuad, sortTriple, sortPair, sortNat]
    refine ⟨(bc.1, bc.2, d), ?_, e, ⟨he, ?_⟩, rfl⟩
    · exact ⟨bc, ⟨bc.1, by simpa [hs12, sortNat] using hb, bc.2,
        ⟨hn, by simpa using hne⟩, rfl⟩, d, ⟨hd, by simp [hd_ne_a, hd_ne_b]⟩, rfl⟩
    · simp [he_ne_a, he_ne_b, he_ne_c]
  · -- shortPath13 targets avoid the focal atom and its 1-2 neighbors
    intro p hp
    have hp' : p ∈ sp13.1 := by simpa [sortPair] using hp
    have h := f13 p hp'
    exact ⟨fun he => h (hmemvis0 _ (Or.inl he)),
      fun he => h (hmemvis0 _ (Or.inr he))⟩
  · intro t ht
    have ht' : t ∈ sp14.1 := by simpa [sortTriple] using ht
    have h := f14 t ht'
    exact ⟨fun he => h (hvis0sub (hmemvis0 _ (Or.inl he))),
      fun he => h (hvis0sub (hmemvis0 _ (Or.inr he)))⟩
  · intro q hq
    have hq' : q ∈ sp15.1 := by simpa [sortQuad] using hq
    have h := f15 q hq'
    exact ⟨fun he => h (hvis1sub (hvis0sub (hmemvis0 _ (Or.inl he)))),
      fun he => h (hvis1sub (hvis0sub (hmemvis0 _ (Or.inr he))))⟩
  · -- 1-3 and 1-4 shortest-path targets are distinct
    intro p hp t ht
    have hp' : p ∈ sp13.1 := by simpa [sortPair] using hp
    have ht' : t ∈ sp14.1 := by simpa [sortTriple] using ht
    intro he
    exact f14 t ht' (he ▸ t13 p hp')
  · intro p hp q hq
    have hp' : p ∈ sp13.1 := by simpa [sortPair] using hp
    have hq' : q ∈ sp15.1 := by simpa [sortQuad] using hq
    intro he
    exact f15 q hq' (hvis1sub (he ▸ t13 p hp'))
  · intro t ht q hq
    have ht' : t ∈ sp14.1 := by simpa [sortTriple] using ht
    have hq' : q ∈ sp15.1 := by simpa [sortQuad] using hq
    intro he
    exact f15 q hq' (he ▸ t14 t ht')

/-- C1 (code bug): the `static const BondTorsion bt` in the improper-torsion
loop freezes the first lookup's result.  With a table whose only entry
matches the second ordering's quad, the realize loop under the C++ `static`
semantics records nothing (the first ordering missed, and that miss is
cached), while the fresh per-ordering lookup the claim (and the code's own
comment) describes records exactly the matching ordering. -/
theorem improper_static_lookup_diverges :
    realizeImproperStatic
        [(⟨2, 4, 1, 3⟩, (⟨⟨2, 4, 1, 3⟩, [⟨2, 1, 0⟩]⟩ : BondTorsion ℚ))]
        (fun n => if n = 10 then 2 else if n = 11 then 3 else
          if n = 12 then 4 else 0)
        [(1, (10, 11, 12))] none = [[]] ∧
    aImproperFresh
        [(⟨2, 4, 1, 3⟩, (⟨⟨2, 4, 1, 3⟩, [⟨2, 1, 0⟩]⟩ : BondTorsion ℚ))]
        (fun n => if n = 10 then 2 else if n = 11 then 3 else
          if n = 12 then 4 else 0)
        1 (10, 11, 12) =
      [((10, 12, 11), ⟨⟨2, 4, 1, 3⟩, [⟨2, 1, 0⟩]⟩)] :=
  ⟨rfl, rfl⟩

theorem countOcc_append {β : Type} [DecidableEq β] (x : β) (l1 l2 : List β) :
    countOcc x (l1 ++ l2) = countOcc x l1 + countOcc x l2 := by
  induction l1 with
  | nil => simp [countOcc]
  | cons y t ih => simp [countOcc, ih]; omega

theorem countOcc_eq_zero {β : Type} [DecidableEq β] {x : β} {l : List β}
    (hx : x ∉ l) : countOcc x l = 0 := by
  induction l with
  | nil => rfl
  | cons y t ih =>
    have hy : y ≠ x := fun h => hx (h ▸ List.mem_cons_self _ _)
    simp only [countOcc, if_neg hy, Nat.zero_add]
    exact ih (fun h => hx (List.mem_cons_of_mem _ h))

theorem countOcc_nodup {β : Type} [DecidableEq β] (x : β) {l : List β}
    (h : l.Nodup) : countOcc x l = if x ∈ l then 1 else 0 := by
  induction l with
  | nil => simp [countOcc]
  | cons y t ih =>
    rcases List.nodup_cons.mp h with ⟨hy, ht⟩
    by_cases hxy : y = x
    · subst hxy
      simp only [countOcc, if_pos rfl, ih ht, countOcc]
      simp [countOcc_eq_zero hy, List.mem_cons, if_neg, hy]
    · have hxyne : x ≠ y := fun h' => hxy h'.symm
      simp [countOcc, if_neg hxy, ih ht, List.mem_cons, hxyne]

theorem countOcc_perm {β : Type} [DecidableEq β] (x : β) {l1 l2 : List β}
    (h : l1.Perm l2) : countOcc x l1 = countOcc x l2 := by
  induction h with
  | nil => rfl
  | cons y _ ih => simp [countOcc, ih]
  | swap y z t => simp [countOcc]; omega
  | trans _ _ ih1 ih2 => exact ih1.trans ih2

theorem countOcc_map_focal {β : Type} [DecidableEq β] (c c' : ℕ) (x : β)
    (l : List β) :
    countOcc (c, x) (l.map (fun y => (c', y))) =
      if c' = c then countOcc x l else 0 := by
  induction l with
  | nil => simp [countOcc]
  | cons y t ih =>
    simp only [List.map_cons, countOcc, ih]
    by_cases h : c' = c
    · subst h
      by_cases hx : y = x
      · subst hx; simp
      · simp [hx, Prod.ext_iff]
    · simp [h, Prod.ext_iff]

theorem countOcc_flatMap {α β : Type} [DecidableEq β] (L : List α)
    (f : α → List β) (x : β) :
    countOcc x (L.flatMap f) = (L.map (fun a => countOcc x (f a))).sum := by
  induction L with
  | nil => rfl
  | cons a t ih => simp [List.flatMap_cons, countOcc_append, ih]

theorem sum_map_ite_count (L : List ℕ) (a : ℕ) (k : ℕ) :
    (L.map (fun y => if y = a then k else 0)).sum = k * countOcc a L := by
  induction L with
  | nil => simp [countOcc]
  | cons y t ih =>
    simp only [List.map_cons, List.sum_cons, ih, countOcc]
    by_cases h : y = a
    · rw [if_pos h, if_pos h]; ring
    · rw [if_neg h, if_neg h]; ring

theorem bondedEvals_eq_flat {β : Type} (bodies : List (List ℕ))
    (f : ℕ → List β) :
    bondedEvals bodies f =
      (allAtoms bodies).flatMap (fun a1 => (f a1).map (fun y => (a1, y))) := by
  induction bodies with
  | nil => rfl
  | cons l rest ih =>
    simp only [bondedEvals, allAtoms, List.flatMap_cons, List.flatMap_append,
      id] at ih ⊢
    rw [ih]

theorem bondedEvals_count {β : Type} [DecidableEq β] (bodies : List (List ℕ))
    (f : ℕ → List β) (a : ℕ) (x : β) (hnodup : (allAtoms bodies).Nodup)
    (ha : a ∈ allAtoms bodies) :
    countOcc (a, x) (bondedEvals bodies f) = countOcc x (f a) := by
  rw [bondedEvals_eq_flat, countOcc_flatMap]
  have hcongr : (allAtoms bodies).map
      (fun a1 => countOcc (a, x) ((f a1).map (fun y => (a1, y)))) =
      (allAtoms bodies).map (fun a1 => if a1 = a then countOcc x (f a) else 0) := by
    apply List.map_congr_left
    intro a1 _
    rw [countOcc_map_focal]
    by_cases h : a1 = a
    · subst h; simp
    · simp [h]
  rw [hcongr, sum_map_ite_count, countOcc_nodup a hnodup, if_pos ha,
    Nat.mul_one]

theorem bondedEvals_count_zero {β : Type} [DecidableEq β]
    (bodies : List (List ℕ)) (f : ℕ → List β) (a : ℕ) (x : β)
    (ha : a ∉ allAtoms bodies) :
    countOcc (a, x) (bondedEvals bodies f) = 0 := by
  rw [bondedEvals_eq_flat, countOcc_flatMap]
  have hcongr : (allAtoms bodies).map
      (fun a1 => countOcc (a, x) ((f a1).map (fun y => (a1, y)))) =
      (allAtoms bodies).map (fun a1 => if a1 = a then countOcc x (f a) else 0) := by
    apply List.map_congr_left
    intro a1 _
    rw [countOcc_map_focal]
    by_cases h : a1 = a
    · subst h; simp
    · simp [h]
  rw [hcongr, sum_map_ite_count, countOcc_eq_zero ha, Nat.mul_zero]

theorem mem_xbond12 {adj : ℕ → List ℕ} {bodyOf : ℕ → ℕ} {a b : ℕ} :
    b ∈ xbond12 adj bodyOf a ↔ b ∈ adj a ∧ bodyOf b ≠ bodyOf a := by
  simp [xbond12, sortNat, List.mem_filter]

theorem mem_bond13 {adj : ℕ → List ℕ} {a : ℕ} {p : ℕ × ℕ} :
    p ∈ (buildNeighborhoods adj a).bond13 ↔
      p.1 ∈ adj a ∧ p.2 ∈ adj p.1 ∧ p.2 ≠ a := by
  obtain ⟨b, c⟩ := p
  simp only [buildNeighborhoods]
  simp [sortPair, sortNat, List.mem_flatMap, List.mem_map, List.mem_filter,
    Prod.mk.injEq]

theorem mem_bond14 {adj : ℕ → List ℕ} {a : ℕ} {t : ℕ × ℕ × ℕ} :
    t ∈ (buildNeighborhoods adj a).bond14 ↔
      (t.1, t.2.1) ∈ (buildNeighborhoods adj a).bond13 ∧
      t.2.2 ∈ adj t.2.1 ∧ t.2.2 ≠ a ∧ t.2.2 ≠ t.1 := by
  obtain ⟨b, c, d⟩ := t
  simp only [buildNeighborhoods]
  simp [sortTriple, sortPair, sortNat, List.mem_flatMap, List.mem_map,
    List.mem_filter, Prod.mk.injEq]
  constructor
  · rintro ⟨b', c', ⟨hb', hc', hcne⟩, d', ⟨hd', hda, hdb⟩, rfl, rfl, rfl⟩
    exact ⟨⟨hb', hc', hcne⟩, hd', hda, hdb⟩
  · rintro ⟨⟨hb, hc, hcne⟩, hd, hda, hdb⟩
    exact ⟨b, c, ⟨hb, hc, hcne⟩, d, ⟨hd, hda, hdb⟩, rfl, rfl, rfl⟩

theorem mem_xbond13 {adj : ℕ → List ℕ} {bodyOf : ℕ → ℕ} {a : ℕ} {p : ℕ × ℕ} :
    p ∈ xbond13 adj bodyOf a ↔
      p ∈ (buildNeighborhoods adj a).bond13 ∧
      (bodyOf p.1 ≠ bodyOf a ∨ bodyOf p.2 ≠ bodyOf a) := by
  simp [xbond13, List.mem_filter]

theorem mem_xbond14 {adj : ℕ → List ℕ} {bodyOf : ℕ → ℕ} {a : ℕ}
    {t : ℕ × ℕ × ℕ} :
    t ∈ xbond14 adj bodyOf a ↔
      t ∈ (buildNeighborhoods adj a).bond14 ∧
      (bodyOf t.1 ≠ bodyOf a ∨ bodyOf t.2.1 ≠ bodyOf a ∨
        bodyOf t.2.2 ≠ bodyOf a) := by
  simp [xbond14, List.mem_filter]

theorem nodup_sortNat {l : List ℕ} (h : l.Nodup) : (sortNat l).Nodup :=
  (List.perm_insertionSort _ l).nodup_iff.mpr h

theorem nodup_xbond12 {adj : ℕ → List ℕ} {bodyOf : ℕ → ℕ} {a : ℕ}
    (h : (adj a).Nodup) : (xbond12 adj bodyOf a).Nodup :=
  (nodup_sortNat h).filter _

theorem nodup_bond13 {adj : ℕ → List ℕ} {a : ℕ} (ha : (adj a).Nodup)
    (hadj : ∀ b ∈ adj a, (adj b).Nodup) :
    (buildNeighborhoods adj a).bond13.Nodup := by
  simp only [buildNeighborhoods]
  apply (List.perm_insertionSort pairLe _).nodup_iff.mpr
  refine List.nodup_flatMap.mpr ⟨?_, ?_⟩
  · intro b hb
    have hb' : b ∈ adj a := by simpa [sortNat] using hb
    exact ((hadj b hb').filter _).map
      (fun x y hxy => by simpa using congrArg Prod.snd hxy)
  · refine List.Pairwise.imp ?_ (nodup_sortNat ha)
    intro b b' hne x hx hx'
    simp only [List.mem_map] at hx hx'
    obtain ⟨n, -, rfl⟩ := hx
    obtain ⟨n', -, he⟩ := hx'
    exact hne (congrArg Prod.fst he).symm

theorem nodup_bond14 {adj : ℕ → List ℕ} {a : ℕ}
    (h13 : (buildNeighborhoods adj a).bond13.Nodup)
    (hadj : ∀ p ∈ (buildNeighborhoods adj a).bond13, (adj p.2).Nodup) :
    (buildNeighborhoods adj a).bond14.Nodup := by
  have hb13 : (buildNeighborhoods adj a).bond14 =
      sortTriple ((buildNeighborhoods adj a).bond13.flatMap (fun bc =>
        ((adj bc.2).filter (fun d => d ≠ a ∧ d ≠ bc.1)).map
          (fun d => (bc.1, bc.2, d)))) := by
    simp only [buildNeighborhoods]
  rw [hb13]
  apply (List.perm_insertionSort tripleLe _).nodup_iff.mpr
  refine List.nodup_flatMap.mpr ⟨?_, ?_⟩
  · intro bc hbc
    exact ((hadj bc hbc).filter _).map
      (fun x y hxy => by
        have := congrArg (fun q => q.2.2) hxy
        simpa using this)
  · refine List.Pairwise.imp ?_ h13
    intro bc bc' hne x hx hx'
    simp only [List.mem_map] at hx hx'
    obtain ⟨d, -, rfl⟩ := hx
    obtain ⟨d', -, he⟩ := hx'
    apply hne
    have h1 := congrArg Prod.fst he
    have h2 := congrArg (fun q => q.2.1) he
    simp at h1 h2
    exact Prod.ext h1.symm h2.symm

theorem nodup_xbond13 {adj : ℕ → List ℕ} {bodyOf : ℕ → ℕ} {a : ℕ}
    (ha : (adj a).Nodup) (hadj : ∀ b ∈ adj a, (adj b).Nodup) :
    (xbond13 adj bodyOf a).Nodup :=
  (nodup_bond13 ha hadj).filter _

theorem nodup_xbond14 {adj : ℕ → List ℕ} {bodyOf : ℕ → ℕ} {a : ℕ}
    (h13 : (buildNeighborhoods adj a).bond13.Nodup)
    (hadj : ∀ p ∈ (buildNeighborhoods adj a).bond13, (adj p.2).Nodup) :
    (xbond14 adj bodyOf a).Nodup :=
  (nodup_bond14 h13 hadj).filter _

theorem cross3_symm (A B C : ℕ) : (B ≠ A ∨ C ≠ A) ↔ (B ≠ C ∨ A ≠ C) := by
  omega

theorem cross4_symm (A B C D : ℕ) :
    (B ≠ A ∨ C ≠ A ∨ D ≠ A) ↔ (C ≠ D ∨ B ≠ D ∨ A ≠ D) := by
  omega

theorem xbond13_mirror {adj : ℕ → List ℕ} {bodyOf : ℕ → ℕ}
    {bodies : List (List ℕ)} (H : KernelHyps adj bodyOf bodies) {a b c : ℕ}
    (ha : a ∈ allAtoms bodies) (h : (b, c) ∈ xbond13 adj bodyOf a) :
    c ∈ allAtoms bodies ∧ (b, a) ∈ xbond13 adj bodyOf c := by
  rcases mem_xbond13.mp h with ⟨h13, hcross⟩
  rcases mem_bond13.mp h13 with ⟨hb, hc, hne⟩
  obtain ⟨hab, hbfl⟩ := H.symmAdj a ha b hb
  obtain ⟨hbc, hcfl⟩ := H.symmAdj b hbfl c hc
  refine ⟨hcfl, mem_xbond13.mpr ⟨mem_bond13.mpr ⟨hbc, hab, fun he => hne he.symm⟩, ?_⟩⟩
  exact (cross3_symm (bodyOf a) (bodyOf b) (bodyOf c)).mp hcross

theorem xbond14_mirror {adj : ℕ → List ℕ} {bodyOf : ℕ → ℕ}
    {bodies : List (List ℕ)} (H : KernelHyps adj bodyOf bodies) {a b c d : ℕ}
    (ha : a ∈ allAtoms bodies) (h : (b, c, d) ∈ xbond14 adj bodyOf a) :
    d ∈ allAtoms bodies ∧ (c, b, a) ∈ xbond14 adj bodyOf d := by
  rcases mem_xbond14.mp h with ⟨h14, hcross⟩
  rcases mem_bond14.mp h14 with ⟨h13, hd, hda, hdb⟩
  rcases mem_bond13.mp h13 with ⟨hb, hc, hca⟩
  obtain ⟨hab, hbfl⟩ := H.symmAdj a ha b hb
  obtain ⟨hbc, hcfl⟩ := H.symmAdj b hbfl c hc
  obtain ⟨hcd, hdfl⟩ := H.symmAdj c hcfl d hd
  refine ⟨hdfl, mem_xbond14.mpr ⟨mem_bond14.mpr ⟨mem_bond13.mpr
    ⟨hcd, hbc, fun he => hdb he.symm⟩, hab, fun he => hda he.symm,
    fun he => hca he.symm⟩, ?_⟩⟩
  exact (cross4_symm (bodyOf a) (bodyOf b) (bodyOf c) (bodyOf d)).mp hcross

theorem countOcc_filter_nodup {β : Type} [DecidableEq β] {l : List β}
    (h : l.Nodup) (p : β → Bool) (x : β) :
    countOcc x (l.filter p) = if x ∈ l ∧ p x = true then 1 else 0 := by
  rw [countOcc_nodup x (h.filter p)]
  simp [List.mem_filter]

theorem allAtoms_cons (l : List ℕ) (rest : List (List ℕ)) :
    allAtoms (l :: rest) = l ++ allAtoms rest := by
  simp [allAtoms]

theorem bondedEvals_mem {β : Type} (bodies : List (List ℕ)) (f : ℕ → List β)
    {e : ℕ × β} (he : e ∈ bondedEvals bodies f) :
    e.2 ∈ f e.1 ∧ e.1 ∈ allAtoms bodies := by
  rw [bondedEvals_eq_flat] at he
  simp only [List.mem_flatMap, List.mem_map] at he
  obtain ⟨a1, ha1, y, hy, he'⟩ := he
  subst he'
  exact ⟨hy, ha1⟩

theorem nonbondedEvals_support {bodies : List (List ℕ)} {e : ℕ × ℕ}
    (he : e ∈ nonbondedEvals bodies) :
    e.1 ∈ allAtoms bodies ∧ e.2 ∈ allAtoms bodies := by
  induction bodies with
  | nil => simp [nonbondedEvals] at he
  | cons l rest ih =>
    rw [nonbondedEvals] at he
    rcases List.mem_append.mp he with he' | he'
    · simp only [List.mem_flatMap, List.mem_map] at he'
      obtain ⟨a1, ha1, a2, ha2, he''⟩ := he'
      subst he''
      rw [allAtoms_cons]
      exact ⟨List.mem_append.mpr (Or.inl ha1),
        List.mem_append.mpr (Or.inr
          (by simpa [allAtoms, List.mem_flatMap] using ha2))⟩
    · rw [allAtoms_cons]
      exact ⟨List.mem_append.mpr (Or.inr (ih he').1),
        List.mem_append.mpr (Or.inr (ih he').2)⟩

theorem nonbonded_count_zero {bodies : List (List ℕ)} {x y : ℕ}
    (hx : x ∉ allAtoms bodies ∨ y ∉ allAtoms bodies) :
    countOcc (x, y) (nonbondedEvals bodies) = 0 := by
  apply countOcc_eq_zero
  intro hmem
  rcases nonbondedEvals_support hmem with ⟨h1, h2⟩
  rcases hx with hx | hx
  · exact hx h1
  · exact hx h2

theorem nonbonded_head_count (l : List ℕ) (rest : List (List ℕ)) (x y : ℕ) :
    countOcc (x, y)
      (l.flatMap (fun a1 => (rest.flatMap id).map (fun a2 => (a1, a2)))) =
      countOcc y (allAtoms rest) * countOcc x l := by
  rw [countOcc_flatMap]
  have hcongr : l.map
      (fun a1 => countOcc (x, y) ((rest.flatMap id).map (fun a2 => (a1, a2)))) =
      l.map (fun a1 => if a1 = x then countOcc y (allAtoms rest) else 0) := by
    apply List.map_congr_left
    intro a1 _
    rw [countOcc_map_focal]
    rfl
  rw [hcongr, sum_map_ite_count]

theorem nonbonded_count (bodyOf : ℕ → ℕ) : ∀ (bodies : List (List ℕ)),
    (allAtoms bodies).Nodup →
    (∀ l ∈ bodies, ∀ x ∈ l, ∀ y ∈ l, bodyOf x = bodyOf y) →
    bodies.Pairwise (fun l1 l2 => ∀ x ∈ l1, ∀ y ∈ l2, bodyOf x ≠ bodyOf y) →
    ∀ a b : ℕ, a ∈ allAtoms bodies → b ∈ allAtoms bodies →
    countOcc (a, b) (nonbondedEvals bodies) +
      countOcc (b, a) (nonbondedEvals bodies) =
      if bodyOf a ≠ bodyOf b then 1 else 0 := by
  intro bodies
  induction bodies with
  | nil =>
    intro _ _ _ a b ha _
    simp [allAtoms] at ha
  | cons l rest ih =>
    intro hnodup hsame hdiff a b ha hb
    rw [allAtoms_cons] at hnodup ha hb
    rcases List.nodup_append.mp hnodup with ⟨hnl, hnr, hdisj⟩
    have hsame2 : ∀ l2 ∈ rest, ∀ x ∈ l2, ∀ y ∈ l2, bodyOf x = bodyOf y :=
      fun l2 hl2 => hsame l2 (List.mem_cons_of_mem _ hl2)
    rcases List.pairwise_cons.mp hdiff with ⟨hheadrel, hdiff2⟩
    have hbody_lr : ∀ x ∈ l, ∀ y ∈ allAtoms rest, bodyOf x ≠ bodyOf y := by
      intro x hx y hy
      simp only [allAtoms, List.mem_flatMap, id] at hy
      obtain ⟨l2, hl2, hy2⟩ := hy
      exact hheadrel l2 hl2 x hx y hy2
    rw [nonbondedEvals, countOcc_append, countOcc_append,
      nonbonded_head_count, nonbonded_head_count]
    rcases List.mem_append.mp ha with hal | har
    · rcases List.mem_append.mp hb with hbl | hbr
      · have hbodyeq : bodyOf a = bodyOf b :=
          hsame l (List.mem_cons_self _ _) a hal b hbl
        rw [countOcc_eq_zero (hdisj hbl), countOcc_eq_zero (hdisj hal),
          nonbonded_count_zero (Or.inl (hdisj hal)),
          nonbonded_count_zero (Or.inl (hdisj hbl))]
        simp [hbodyeq]
      · have hbodyne : bodyOf a ≠ bodyOf b := hbody_lr a hal b hbr
        have hbnl : b ∉ l := fun h => hdisj h hbr
        rw [countOcc_nodup b hnr, if_pos hbr, countOcc_nodup a hnl, if_pos hal,
          countOcc_eq_zero (fun h => hdisj hal h),
          countOcc_eq_zero hbnl,
          nonbonded_count_zero (Or.inl (hdisj hal)),
          nonbonded_count_zero (Or.inr (hdisj hal))]
        simp [hbodyne]
    · rcases List.mem_append.mp hb with hbl | hbr
      · have hbodyne : bodyOf b ≠ bodyOf a := hbody_lr b hbl a har
        have hanl : a ∉ l := fun h => hdisj h har
        rw [countOcc_nodup b hnr, countOcc_eq_zero hanl,
          countOcc_nodup a hnr, if_pos har, countOcc_nodup b hnl, if_pos hbl,
          nonbonded_count_zero (Or.inr (hdisj hbl)),
          nonbonded_count_zero (Or.inl (hdisj hbl))]
        rw [if_neg (fun h : b ∈ allAtoms rest => hdisj hbl h),
          if_pos (show bodyOf a ≠ bodyOf b from fun h => hbodyne h.symm)]
      · have hanl : a ∉ l := fun h => hdisj h har
        have hbnl : b ∉ l := fun h => hdisj h hbr
        rw [countOcc_eq_zero hanl, countOcc_eq_zero hbnl]
        simp only [Nat.mul_zero, Nat.zero_add]
        exact ih hnr hsame2 hdiff2 a b har hbr

/-- C2: in one kernel evaluation over a realized topology, every cross-body
bonded tuple is evaluated exactly once and every cross-body nonbonded atom
pair exactly once: a cross-body 1-2 stretch or 1-4 torsion tuple (which
appears in the lists of both end atoms) is processed only from the end whose
focal index is lower than the last atom's; a 1-3 bend tuple only when the
last atom's index is not less than the focal atom's; improper-torsion
entries are not deduplicated (each recorded entry is evaluated with its
stored multiplicity); and each nonbonded pair arises once from the body-pair
loop with i < j. -/
theorem kernel_evaluates_each_tuple_once (adj : ℕ → List ℕ)
    (bodyOf : ℕ → ℕ) (bodies : List (List ℕ)) (aImp : ℕ → List (ℕ × ℕ × ℕ))
    (H : KernelHyps adj bodyOf bodies) :
    (∀ a ∈ allAtoms bodies, ∀ b ∈ allAtoms bodies, a < b →
      countOcc (a, b) (stretchEvals adj bodyOf bodies) +
        countOcc (b, a) (stretchEvals adj bodyOf bodies) =
        if b ∈ xbond12 adj bodyOf a then 1 else 0) ∧
    (∀ e ∈ stretchEvals adj bodyOf bodies,
      e.1 < e.2 ∧ e.2 ∈ xbond12 adj bodyOf e.1) ∧
    (∀ a ∈ allAtoms bodies, ∀ c ∈ allAtoms bodies, ∀ b : ℕ, a ≠ c →
      countOcc (a, (b, c)) (bendEvals adj bodyOf bodies) +
        countOcc (c, (b, a)) (bendEvals adj bodyOf bodies) =
        if (b, c) ∈ xbond13 adj bodyOf a then 1 else 0) ∧
    (∀ e ∈ bendEvals adj bodyOf bodies,
      ¬ e.2.2 < e.1 ∧ e.2 ∈ xbond13 adj bodyOf e.1) ∧
    (∀ a ∈ allAtoms bodies, ∀ d ∈ allAtoms bodies, ∀ b c : ℕ, a ≠ d →
      countOcc (a, (b, c, d)) (torsionEvals adj bodyOf bodies) +
        countOcc (d, (c, b, a)) (torsionEvals adj bodyOf bodies) =
        if (b, c, d) ∈ xbond14 adj bodyOf a then 1 else 0) ∧
    (∀ e ∈ torsionEvals adj bodyOf bodies,
      e.1 < e.2.2.2 ∧ e.2 ∈ xbond14 adj bodyOf e.1) ∧
    (∀ a ∈ allAtoms bodies, ∀ t : ℕ × ℕ × ℕ,
      countOcc (a, t) (improperEvals bodies aImp) = countOcc t (aImp a)) ∧
    (∀ a ∈ allAtoms bodies, ∀ b ∈ allAtoms bodies,
      countOcc (a, b) (nonbondedEvals bodies) +
        countOcc (b, a) (nonbondedEvals bodies) =
        if bodyOf a ≠ bodyOf b then 1 else 0) := by
  have hflat := H.nodupAtoms
  have hclosure : ∀ a ∈ allAtoms bodies, ∀ b ∈ adj a, b ∈ allAtoms bodies :=
    fun a ha b hb => (H.symmAdj a ha b hb).2
  have hnadj : ∀ a ∈ allAtoms bodies, (adj a).Nodup := H.nodupAdj
  have hnx12 : ∀ a ∈ allAtoms bodies, (xbond12 adj bodyOf a).Nodup :=
    fun a ha => nodup_xbond12 (hnadj a ha)
  have hnb13 : ∀ a ∈ allAtoms bodies, (buildNeighborhoods adj a).bond13.Nodup :=
    fun a ha => nodup_bond13 (hnadj a ha)
      (fun b hb => hnadj b (hclosure a ha b hb))
  have hnx13 : ∀ a ∈ allAtoms bodies, (xbond13 adj bodyOf a).Nodup :=
    fun a ha => (hnb13 a ha).filter _
  have hnx14 : ∀ a ∈ allAtoms bodies, (xbond14 adj bodyOf a).Nodup := by
    intro a ha
    refine (nodup_bond14 (hnb13 a ha) ?_).filter _
    intro p hp
    rcases mem_bond13.mp hp with ⟨h1, h2, -⟩
    exact hnadj p.2 (hclosure p.1 (hclosure a ha p.1 h1) p.2 h2)
  refine ⟨?_, ?_, ?_, ?_, ?_, ?_, ?_, ?_⟩
  · -- stretch: exactly once, from the lower-index end
    intro a ha b hb hab
    rw [stretchEvals, bondedEvals_count _ _ _ _ hflat ha,
      bondedEvals_count _ _ _ _ hflat hb,
      countOcc_filter_nodup (hnx12 a ha), countOcc_filter_nodup (hnx12 b hb)]
    simp [decide_eq_true_eq, Nat.not_lt, hab.le, Nat.not_le.mpr hab]
  · -- stretch evaluations are directed upward
    intro e he
    rw [stretchEvals] at he
    obtain ⟨hmem, hfl⟩ := bondedEvals_mem _ _ he
    rw [List.mem_filter] at hmem
    obtain ⟨hx, hlt⟩ := hmem
    have hne : e.2 ≠ e.1 := by
      rcases mem_xbond12.mp hx with ⟨hadj2, -⟩
      intro hcontra
      exact H.irreflAdj e.1 hfl (hcontra ▸ hadj2)
    exact ⟨Nat.lt_of_le_of_ne (Nat.not_lt.mp (of_decide_eq_true hlt))
      (fun h => hne h.symm), hx⟩
  · -- bend: exactly once, from the end making the last atom not lower
    intro a ha c hc b hac
    rw [bendEvals, bondedEvals_count _ _ _ _ hflat ha,
      bondedEvals_count _ _ _ _ hflat hc,
      countOcc_filter_nodup (hnx13 a ha), countOcc_filter_nodup (hnx13 c hc)]
    by_cases hm : (b, c) ∈ xbond13 adj bodyOf a
    · have hm2 : (b, a) ∈ xbond13 adj bodyOf c := (xbond13_mirror H ha hm).2
      rcases Nat.lt_or_ge a c with hlt | hge
      · rw [if_pos ⟨hm, by simp [decide_eq_true_eq, Nat.not_lt, hlt.le]⟩,
          if_neg (fun hcond : _ ∧ _ =>
            absurd (of_decide_eq_true hcond.2) (not_not_intro hlt)),
          if_pos hm]
      · have hlt2 : c < a := Nat.lt_of_le_of_ne hge (fun h => hac h.symm)
        rw [if_neg (fun hcond : _ ∧ _ =>
            absurd (of_decide_eq_true hcond.2) (not_not_intro hlt2)),
          if_pos ⟨hm2, by simp [decide_eq_true_eq, Nat.not_lt, hlt2.le]⟩,
          if_pos hm]
    · rw [if_neg (fun hcond : _ ∧ _ => hm hcond.1),
        if_neg (fun hcond : _ ∧ _ => hm (xbond13_mirror H hc hcond.1).2),
        if_neg hm]
  · -- bend evaluations respect the skip and come from xbond13
    intro e he
    rw [bendEvals] at he
    obtain ⟨hmem, -⟩ := bondedEvals_mem _ _ he
    rw [List.mem_filter] at hmem
    exact ⟨of_decide_eq_true hmem.2, hmem.1⟩
  · -- torsion: exactly once, from the lower-index end
    intro a ha d hd b c had
    rw [torsionEvals, bondedEvals_count _ _ _ _ hflat ha,
      bondedEvals_count _ _ _ _ hflat hd,
      countOcc_filter_nodup (hnx14 a ha), countOcc_filter_nodup (hnx14 d hd)]
    by_cases hm : (b, c, d) ∈ xbond14 adj bodyOf a
    · have hm2 : (c, b, a) ∈ xbond14 adj bodyOf d := (xbond14_mirror H ha hm).2
      rcases Nat.lt_or_ge a d with hlt | hge
      · rw [if_pos ⟨hm, by simp [decide_eq_true_eq, Nat.not_lt, hlt.le]⟩,
          if_neg (fun hcond : _ ∧ _ =>
            absurd (of_decide_eq_true hcond.2) (not_not_intro hlt)),
          if_pos hm]
      · have hlt2 : d < a := Nat.lt_of_le_of_ne hge (fun h => had h.symm)
        rw [if_neg (fun hcond : _ ∧ _ =>
            absurd (of_decide_eq_true hcond.2) (not_not_intro hlt2)),
          if_pos ⟨hm2, by simp [decide_eq_true_eq, Nat.not_lt, hlt2.le]⟩,
          if_pos hm]
    · rw [if_neg (fun hcond : _ ∧ _ => hm hcond.1),
        if_neg (fun hcond : _ ∧ _ => hm (xbond14_mirror H hd hcond.1).2),
        if_neg hm]
  · -- torsion evaluations are directed upward
    intro e he
    rw [torsionEvals] at he
    obtain ⟨hmem, -⟩ := bondedEvals_mem _ _ he
    rw [List.mem_filter] at hmem
    obtain ⟨hx, hlt⟩ := hmem
    have hne : e.2.2.2 ≠ e.1 :=
      (mem_bond14.mp (mem_xbond14.mp hx).1).2.2.1
    exact ⟨Nat.lt_of_le_of_ne (Nat.not_lt.mp (of_decide_eq_true hlt))
      (fun h => hne h.symm), hx⟩
  · -- improper entries: evaluated with their stored multiplicity, no skip
    intro a ha t
    rw [improperEvals, bondedEvals_count _ _ _ _ hflat ha]
  · -- nonbonded pairs: once from the body-pair loop
    intro a ha b hb
    exact nonbonded_count bodyOf bodies hflat H.sameBody H.diffBody a b ha hb

/-- Witness for the kernel exactly-once theorem: two bonded atoms on two
one-atom bodies; the stretch tuple is evaluated once, from atom 0. -/
theorem kernel_evaluates_each_tuple_once_witness :
    countOcc ((0 : ℕ), (1 : ℕ))
        (stretchEvals (fun a => if a = 0 then [1] else if a = 1 then [0] else [])
          (fun a => a) [[0], [1]]) +
      countOcc ((1 : ℕ), (0 : ℕ))
        (stretchEvals (fun a => if a = 0 then [1] else if a = 1 then [0] else [])
          (fun a => a) [[0], [1]]) =
      if (1 : ℕ) ∈ xbond12
          (fun a => if a = 0 then [1] else if a = 1 then [0] else [])
          (fun a => a) 0 then 1 else 0 :=
  (kernel_evaluates_each_tuple_once
    (fun a => if a = 0 then [1] else if a = 1 then [0] else [])
    (fun a => a) [[0], [1]] (fun _ => [])
    ⟨by decide, by decide, by decide, by decide, by decide, by decide⟩).1
    0 (by decide) 1 (by decide) (by decide)

end Simbody
